import Mathlib

/-!
Verification of the spreadsheet-to-JSON catalogue transform
(`excel_to_brevo_json.py`).

The script is embedded shallowly:

* a cell of the spreadsheet is a `Value` (string, number, or the missing
  marker — pandas' `NaN`);
* a table is a header list plus rows of cells, as produced by
  `pd.read_excel` (headers are unique, since `read_excel` mangles
  duplicated header names; later steps of the pipeline can nevertheless
  create duplicate labels, and the embedding keeps track of that);
* the pipeline of `convert_excel_to_json` (column resolution, brand
  stringification, discount normalisation, image synthesis, grouping,
  sorting, record extraction) is translated function by function;
* `json.dump(..., ensure_ascii=False, indent=2)` is modelled by a
  renderer specialised to the fixed shape of the output document.

Modelling notes, used throughout:

* a numeric cell is a scaled decimal `Dec` (an integer numerator over a
  power of ten), which covers every numeric literal the script can meet;
  the exact decimal rendering of a float is irrelevant to every claim
  and is modelled only schematically; float infinities are outside the
  model;
* Python's `str.lower` is modelled by ASCII case folding (the headers
  and values whose case matters in the script are ASCII);
* Python's `str.strip` is modelled by trimming `Char.isWhitespace`
  characters on both ends;
* `pd.to_numeric(errors="coerce")` on a string cell is modelled by a
  parser for optionally signed decimal/exponent literals, surrounding
  whitespace allowed, anything else coercing to missing;
* `Series.round(0)` rounds half to even, as pandas does;
* Python compares strings lexicographically by code point, modelled by
  `charListLe`;
* sorts: Python's `sorted` is a stable sort and `DataFrame.sort_values`
  an arbitrary one; both are modelled by `List.insertionSort`, and every
  ordering property proved holds for any sort realising that ordering;
* `DataFrame.to_dict(orient="records")` builds each record as a Python
  `dict` from the `(column, cell)` pairs in column order, so a duplicated
  column label yields a single key holding the value of the rightmost
  duplicate, at the position of the leftmost one; `dictOfPairs` models
  exactly that;
* a raised pandas exception (`KeyError`/`ValueError` on a grouper or
  sort key that disappeared or became ambiguous after the rename) is
  modelled by an `Except.error` result, like the script's own
  `raise ValueError` calls; in every error case no output document — and
  hence no output file — is produced.
-/

namespace ArtStory

/-- A scaled decimal: the rational `num / 10 ^ exp`. This represents the
numeric cell values (spreadsheet numbers, parsed numeric strings). -/
structure Dec where
  num : ℤ
  exp : ℕ
deriving DecidableEq

/-- The rational value of a scaled decimal. -/
def Dec.toRat (d : Dec) : ℚ := (d.num : ℚ) / (10 : ℚ) ^ d.exp

/-- A spreadsheet cell: a string, a number, or the missing marker
(pandas `NaN`). -/
inductive Value where
  | vStr (s : String)
  | vNum (d : Dec)
  | vMissing
deriving DecidableEq

/-- Whether a cell holds a string. -/
def Value.isStrB : Value → Bool
  | .vStr _ => true
  | _ => false

/-- Python `str.lower`, modelled as ASCII case folding character by
character. -/
def pyLower (s : String) : String := String.mk (s.data.map Char.toLower)

/-- Trim whitespace from both ends of a character list. -/
def trimList (cs : List Char) : List Char :=
  ((cs.dropWhile Char.isWhitespace).reverse.dropWhile Char.isWhitespace).reverse

/-- Python `str.strip()` (no argument): remove leading and trailing
whitespace. -/
def pyTrim (s : String) : String := String.mk (trimList s.data)

/-- `s.endswith(suffix)` on character lists. -/
def endsWithL (s suffix : List Char) : Bool :=
  decide (s.drop (s.length - suffix.length) = suffix) && decide (suffix.length ≤ s.length)

/-- Python `str()` of a cell, as `.astype(str)` applies it to a pandas
column: a string is itself, the missing marker (`NaN`) stringifies to
`"nan"`, and a number is rendered in a float-like way (the exact float
repr is irrelevant to every claim; only the `"nan"` case matters). -/
def pyStr : Value → String
  | .vStr s => s
  | .vMissing => "nan"
  | .vNum d => if d.exp = 0 then toString d.num ++ ".0"
      else toString d.num ++ "e-" ++ toString d.exp

/-- Digits to a natural number, most significant first. -/
def digitsToNat (cs : List Char) : ℕ :=
  cs.foldl (fun a c => a * 10 + (c.toNat - 48)) 0

/-- `pd.to_numeric(errors="coerce")` applied to a string: parse an
optionally signed decimal literal with optional fractional part and
optional exponent, allowing surrounding whitespace; any other string
coerces to missing (`none`). -/
def parseNumber (s : String) : Option Dec :=
  let cs := trimList s.data
  let signAndRest : ℤ × List Char :=
    match cs with
    | '+' :: r => (1, r)
    | '-' :: r => (-1, r)
    | r => (1, r)
  let sign := signAndRest.1
  let cs1 := signAndRest.2
  let ip := cs1.takeWhile Char.isDigit
  let rest1 := cs1.dropWhile Char.isDigit
  let hasDot : Bool := match rest1 with | '.' :: _ => true | _ => false
  let afterDot := match rest1 with | '.' :: r => r | r => r
  let fp := if hasDot then afterDot.takeWhile Char.isDigit else []
  let rest2 := if hasDot then afterDot.dropWhile Char.isDigit else rest1
  let expAndRest : Option (ℤ × List Char) :=
    match rest2 with
    | 'e' :: r | 'E' :: r =>
      match r with
      | '+' :: d =>
        if d.takeWhile Char.isDigit = [] then none
        else some ((digitsToNat (d.takeWhile Char.isDigit) : ℤ), d.dropWhile Char.isDigit)
      | '-' :: d =>
        if d.takeWhile Char.isDigit = [] then none
        else some (-(digitsToNat (d.takeWhile Char.isDigit) : ℤ), d.dropWhile Char.isDigit)
      | d =>
        if d.takeWhile Char.isDigit = [] then none
        else some ((digitsToNat (d.takeWhile Char.isDigit) : ℤ), d.dropWhile Char.isDigit)
    | r => some (0, r)
  match expAndRest with
  | none => none
  | some (e, rest3) =>
    if ip = [] ∧ fp = [] then none
    else if rest3 ≠ [] then none
    else
      some { num := sign * ((digitsToNat ip : ℤ) * 10 ^ fp.length + (digitsToNat fp : ℤ)) *
                10 ^ e.toNat,
             exp := fp.length + (-e).toNat }

/-- Coercion of a cell to a number, as `pd.to_numeric(errors="coerce")`
does it: numbers pass through, missing stays missing, strings are
parsed (unparseable strings coerce to missing). -/
def toNumericCoerce : Value → Option Dec
  | .vNum d => some d
  | .vMissing => none
  | .vStr s => parseNumber s

/-- Round `n / den` (with `den > 0`) to the nearest integer, half to
even — the rounding of pandas `Series.round(0)`. -/
def roundInt (n den : ℤ) : ℤ :=
  if 2 * (n % den) < den then n / den
  else if den < 2 * (n % den) then n / den + 1
  else if 2 ∣ n / den then n / den else n / den + 1

/-- Round a scaled decimal to the nearest integer, half to even. -/
def roundDec (d : Dec) : ℤ := roundInt d.num (10 ^ d.exp)

/-- Absolute value of a scaled decimal. -/
def decAbs (d : Dec) : Dec := { num := |d.num|, exp := d.exp }

/-- The per-cell discount transform of lines 52–59:
`pd.to_numeric(errors="coerce").round(0).abs().astype("Int64")`, with
missing (`NA`) cells replaced by `None`. -/
def normalizeDiscountCell (v : Value) : Value :=
  match toNumericCoerce v with
  | none => .vMissing
  | some d => .vNum { num := |roundDec d|, exp := 0 }

/-- The second phase of `find_col`: for each fallback name in order, an
exact match, then a case-insensitive whitespace-trimmed match. -/
def findColFallbacks (cols : List String) : List String → Option String
  | [] => none
  | name :: rest =>
    if name ∈ cols then some name
    else
      match cols.find? (fun c => pyLower (pyTrim c) == pyLower (pyTrim name)) with
      | some c => some c
      | none => findColFallbacks cols rest

/-- `find_col` (lines 19–32): exact match on the canonical name, then
case-insensitive whitespace-trimmed match on the canonical name, then
the same two steps for each fallback in order. -/
def findCol (cols : List String) (target : String) (fallbacks : List String) : Option String :=
  if target ∈ cols then some target
  else
    match cols.find? (fun c => pyLower (pyTrim c) == pyLower (pyTrim target)) with
    | some c => some c
    | none => findColFallbacks cols fallbacks

/-- `build_image` (lines 65–73): missing cell or blank-after-trim code
gives no URL; a trimmed code whose lowercase form already ends in an
image extension is appended to the base URL as is; any other code gets
`".jpg"` appended. -/
def buildImage (imageBaseUrl : String) (val : Value) : Option String :=
  match val with
  | .vMissing => none
  | v =>
    let s := pyTrim (pyStr v)
    if s = "" then none
    else if endsWithL (pyLower s).data ".jpg".data ∨ endsWithL (pyLower s).data ".jpeg".data ∨
        endsWithL (pyLower s).data ".png".data ∨ endsWithL (pyLower s).data ".webp".data then
      some (imageBaseUrl ++ s)
    else some (imageBaseUrl ++ s ++ ".jpg")

/-! ### Tables and configuration -/

/-- A table as read by `pd.read_excel`: the header row and the data
rows (each row aligned with the headers). -/
structure Table where
  headers : List String
  rows : List (List Value)
deriving DecidableEq

/-- The keyword arguments of `convert_excel_to_json` (minus the file
paths, which only locate the input and output). -/
structure Config where
  imageBaseUrl : String
  brandCol : String
  productDescCol : String
  articleCodeCol : String
  discountCol : String
  sortProductsBy : Option String
deriving DecidableEq

/-- The default argument values of `convert_excel_to_json`. -/
def defaultConfig : Config :=
  ⟨"https://cdn.jsdelivr.net/gh/TVScoundrel/artstory-data-sources@main/product-images/",
   "Brand", "Products", "Article code ", "Discount %", none⟩

/-- The cell of `row` in the column labelled `c` (first occurrence of
the label, as `df[c]` selects). -/
def cellAt (headers : List String) (row : List Value) (c : String) : Value :=
  match headers.indexOf? c with
  | some i => row.getD i .vMissing
  | none => .vMissing

/-- Replace the cell in the column labelled `c` by `f` of it. -/
def setCell (headers : List String) (row : List Value) (c : String) (f : Value → Value) :
    List Value :=
  match headers.indexOf? c with
  | some i => row.set i (f (row.getD i .vMissing))
  | none => row

/-- The values of the column labelled `c`. -/
def columnVals (t : Table) (c : String) : List Value :=
  t.rows.map (fun r => cellAt t.headers r c)

/-- `df[c].dtype == object`: pandas stores a column read from a sheet
with the `object` dtype exactly when it is not uniformly numeric, i.e.
(over the `Value` cell model) when it contains at least one string
cell. -/
def dtypeObject (t : Table) (c : String) : Bool :=
  (columnVals t c).any Value.isStrB

/-! ### The column transforms (lines 50–74) -/

/-- Line 50: `df[brand_col] = df[brand_col].astype(str).str.strip()`. -/
def stringifyBrand (brandCol : String) (t : Table) : Table :=
  { t with rows := t.rows.map (fun r => setCell t.headers r brandCol
      (fun v => .vStr (pyTrim (pyStr v)))) }

/-- Lines 52–61: normalise the resolved discount column cell by cell and
rename the column to `"Discount"` (the rename applies to every column
carrying the resolved label; `find_col` guarantees the label is present,
so the script's `discount_col in df.columns` re-check is vacuous). -/
def applyDiscount (dc? : Option String) (t : Table) : Table :=
  match dc? with
  | none => t
  | some dc =>
    { headers := t.headers.map (fun h => if h = dc then "Discount" else h),
      rows := t.rows.map (fun r => setCell t.headers r dc normalizeDiscountCell) }

/-- The `"Image"` cell derived from a row (lines 65–74): `build_image`
of the article-code cell, with Python `None` becoming the missing
marker. -/
def imageCell (imageBaseUrl : String) (hs : List String) (ac : String) (r : List Value) :
    Value :=
  match buildImage imageBaseUrl (cellAt hs r ac) with
  | none => .vMissing
  | some u => .vStr u

/-- Lines 64–74: when the article-code column was resolved, still names
an existing column (the discount rename can have consumed it) and the
base URL is non-empty, set the `"Image"` column from the article codes —
replacing an existing `"Image"` column, otherwise appending one. -/
def applyImage (imageBaseUrl : String) (ac? : Option String) (t : Table) : Table :=
  match ac? with
  | none => t
  | some ac =>
    if ac ∈ t.headers ∧ imageBaseUrl ≠ "" then
      if "Image" ∈ t.headers then
        { t with rows := t.rows.map (fun r => setCell t.headers r "Image"
            (fun _ => imageCell imageBaseUrl t.headers ac r)) }
      else
        { headers := t.headers ++ ["Image"],
          rows := t.rows.map (fun r => r ++ [imageCell imageBaseUrl t.headers ac r]) }
    else t

/-! ### Orderings -/

/-- Lexicographic comparison of character lists by code point — how
Python compares strings. -/
def charListLe : List Char → List Char → Bool
  | [], _ => true
  | _ :: _, [] => false
  | a :: as, b :: bs => if a < b then true else if b < a then false else charListLe as bs

/-- Python `<=` on strings. -/
def strLe (a b : String) : Prop := charListLe a.data b.data = true

instance : DecidableRel strLe := fun _ _ => inferInstanceAs (Decidable (_ = true))

/-- The sort key pandas derives from a cell for `sort_values(by=...,
key=lambda s: s.str.lower() if s.dtype == object else s,
na_position="last")`: on an `object`-dtype column, the lowercased string
(non-strings are sent to `NaN` by `.str.lower()`); on a numeric column,
the number; missing sorts last. -/
inductive SortKey where
  | kStr (cs : List Char)
  | kNum (d : Dec)
  | kNone
deriving DecidableEq

/-- Comparison of sort keys: strings lexicographically, numbers by
value, missing last. (A string key and a numeric key never meet within
one column; the order between them is immaterial and fixed
arbitrarily.) -/
def keyLeB : SortKey → SortKey → Bool
  | .kStr x, .kStr y => charListLe x y
  | .kStr _, _ => true
  | .kNum _, .kStr _ => false
  | .kNum x, .kNum y => decide (x.num * 10 ^ y.exp ≤ y.num * 10 ^ x.exp)
  | .kNum _, .kNone => true
  | .kNone, .kNone => true
  | .kNone, _ => false

/-- The sort key of a row for the product sort. -/
def rowSortKey (isObj : Bool) (headers : List String) (sk : String) (row : List Value) :
    SortKey :=
  if isObj then
    match cellAt headers row sk with
    | .vStr s => .kStr (pyLower s).data
    | _ => .kNone
  else
    match cellAt headers row sk with
    | .vNum d => .kNum d
    | _ => .kNone

/-- The row ordering realised by `group.sort_values(...)` (lines
80–85). -/
def rowLe (isObj : Bool) (headers : List String) (sk : String) (r s : List Value) : Prop :=
  keyLeB (rowSortKey isObj headers sk r) (rowSortKey isObj headers sk s) = true

instance (o : Bool) (hs : List String) (sk : String) : DecidableRel (rowLe o hs sk) :=
  fun _ _ => inferInstanceAs (Decidable (_ = true))

/-! ### Records and groups (lines 76–97) -/

/-- One output product record: ordered JSON object fields. -/
abbrev Record := List (String × Value)

/-- The distinct keys of an association list, in order of first
occurrence — the key order of a Python `dict` built from the pairs. -/
def keysAux : List String → List String → List String
  | [], _ => []
  | k :: rest, seen => if k ∈ seen then keysAux rest seen else k :: keysAux rest (k :: seen)

/-- The value the last pair carrying key `k` holds. -/
def lookupLast (ps : List (String × Value)) (k : String) : Value :=
  ((ps.filter (fun p => p.1 == k)).getLast?.map Prod.snd).getD .vMissing

/-- A Python `dict` built from `(key, value)` pairs in order: each key
appears once, at its first position, holding the value of its last
occurrence. -/
def dictOfPairs (ps : List (String × Value)) : Record :=
  (keysAux (ps.map Prod.fst) []).map (fun k => (k, lookupLast ps k))

/-- Line 89: drop the brand column, then `to_dict(orient="records")`
for one row. -/
def toRecord (headers : List String) (brandCol : String) (row : List Value) : Record :=
  dictOfPairs ((headers.zip row).filter (fun p => p.1 ≠ brandCol))

/-- One output brand group. -/
structure BrandGroup where
  name : Option String
  products : List Record
deriving DecidableEq

/-- The final output document, `{"brands": [...]}`. -/
structure OutputDoc where
  brands : List BrandGroup
deriving DecidableEq

/-- Line 96's sort key for brand groups,
`(b["name"] is None, (b["name"] or "").lower())`, compared as Python
compares tuples. -/
def brandLe (x y : BrandGroup) : Prop :=
  (x.name.isNone = false ∧ y.name.isNone = true) ∨
    (x.name.isNone = y.name.isNone ∧
      strLe (pyLower (x.name.getD "")) (pyLower (y.name.getD "")))

instance : DecidableRel brandLe := fun _ _ => inferInstanceAs (Decidable (_ ∨ _))

/-- The brand key a row groups under: line 79 groups by the brand
column, which line 50 has made a (trimmed, stringified) string column.
(`pyStr` on the guaranteed-string cell is the identity.) -/
def brandStrOfRow (headers : List String) (brandCol : String) (row : List Value) : String :=
  pyStr (cellAt headers row brandCol)

/-- `sort_key = sort_products_by or product_desc_col` (line 76): Python
`or` falls through on `None` and on the empty string. -/
def sortKeyName (cfg : Config) (descCol : String) : String :=
  match cfg.sortProductsBy with
  | none => descCol
  | some s => if s = "" then descCol else s

/-- Lines 78–94: group the rows by brand key (`groupby` with
`sort=True` lists the keys in ascending order, keeping missing-free
string keys as they are), sort each group by the sort key when that
column exists, drop the brand column and extract the records. Since
line 50 leaves no missing brand cells, the group key is never `NaN` and
line 92's `None if pd.isna(brand_name)` branch cannot fire: the group
name is always `some` key. -/
def buildGroups (t : Table) (brandCol sk : String) : List BrandGroup :=
  let keyOf := brandStrOfRow t.headers brandCol
  let keys := List.insertionSort strLe ((t.rows.map keyOf).dedup)
  let isObj := dtypeObject t sk
  keys.map (fun k =>
    let bucket := t.rows.filter (fun r => keyOf r == k)
    let bucketSorted :=
      if sk ∈ t.headers then List.insertionSort (rowLe isObj t.headers sk) bucket else bucket
    { name := some k, products := bucketSorted.map (toRecord t.headers brandCol) })

/-- Lines 38–45: resolve the product-description column, falling back
to the first non-brand column of `object` dtype. -/
def resolveDesc (cfg : Config) (t : Table) (bc : String) : Option String :=
  match findCol t.headers cfg.productDescCol ["Product", "Product name", "Description"] with
  | some c => some c
  | none => t.headers.find? (fun c => c != bc && dtypeObject t c)

/-- Line 47. -/
def resolveArticle (cfg : Config) (t : Table) : Option String :=
  findCol t.headers cfg.articleCodeCol ["Article code", "Code", "SKU"]

/-- Line 48. -/
def resolveDiscount (cfg : Config) (t : Table) : Option String :=
  findCol t.headers cfg.discountCol ["Discount%", "Discount", "DISCOUNT %", "discount %"]

/-- Lines 50–74: the three column transforms in the script's order. -/
def processedTable (cfg : Config) (t : Table) (bc : String) : Table :=
  applyImage cfg.imageBaseUrl (resolveArticle cfg t)
    (applyDiscount (resolveDiscount cfg t) (stringifyBrand bc t))

/-- `convert_excel_to_json` from the resolution step onwards (lines
34–97), producing the output document or the fatal error. A pandas
exception on a grouper or sort key made missing or ambiguous by the
discount rename is an error result as well. -/
def convert (cfg : Config) (t : Table) : Except String OutputDoc :=
  match findCol t.headers cfg.brandCol [] with
  | none => .error "Could not find a 'Brand' column."
  | some brandCol =>
    match resolveDesc cfg t brandCol with
    | none => .error "Could not infer a product description column."
    | some descCol =>
      let t3 := processedTable cfg t brandCol
      let sk := sortKeyName cfg descCol
      if t3.headers.count brandCol ≠ 1 then
        .error "KeyError: the brand column was renamed away or duplicated"
      else if 1 < t3.headers.count sk then
        .error "ValueError: the sort key labels several columns"
      else
        .ok { brands := List.insertionSort brandLe (buildGroups t3 brandCol sk) }

/-- The value of a field of an output record. -/
def recLookup (rec : Record) (k : String) : Option Value :=
  (rec.find? (fun p => p.1 == k)).map Prod.snd

/-! ### Serialisation (lines 99–101)

`json.dump(output, f, ensure_ascii=False, indent=2)`, modelled as a
string renderer specialised to the fixed shape of the output document.
The renderer is parameterised by the indent width and instantiated at
the script's `indent=2`. The file itself is modelled by the rendered
string (written UTF-8; the string model carries the characters). -/

/-- Hexadecimal digit, lowercase, as CPython's `json` emits it. -/
def hexDigit (n : ℕ) : Char :=
  if n < 10 then Char.ofNat (48 + n) else Char.ofNat (87 + n)

/-- Escape one character as CPython's `json.dump(..., ensure_ascii=False)`
does: only the quote, the backslash and control characters are escaped;
every other character — non-ASCII included — passes through verbatim. -/
def escapeChar (c : Char) : String :=
  if c = '"' then "\\\""
  else if c = '\\' then "\\\\"
  else if c = '\n' then "\\n"
  else if c = '\t' then "\\t"
  else if c = '\r' then "\\r"
  else if c = '\x08' then "\\b"
  else if c = '\x0c' then "\\f"
  else if c.toNat < 32 then
    "\\u00" ++ String.mk [hexDigit (c.toNat / 16), hexDigit (c.toNat % 16)]
  else String.singleton c

/-- The escaped character data of a JSON string body. -/
def escapeList (cs : List Char) : List Char :=
  cs.flatMap (fun c => (escapeChar c).data)

/-- A JSON string literal. -/
def jsQuote (s : String) : String :=
  "\"" ++ String.mk (escapeList s.data) ++ "\""

/-- The indentation of nesting depth `d` at indent width `w`. -/
def indentAt (w d : ℕ) : String := String.mk (List.replicate (w * d) ' ')

/-- Render one cell value: missing is `null` (`json.dump` writes `None`
as `null`); an integer-valued number renders as a JSON integer
(`Int64`); the decimal rendering of a non-integer float is modelled
schematically (no claim depends on it). -/
def renderCell : Value → String
  | .vMissing => "null"
  | .vStr s => jsQuote s
  | .vNum d => if d.exp = 0 then toString d.num
      else toString d.num ++ "e-" ++ toString d.exp

/-- Render one record field line. -/
def renderField (w d : ℕ) (f : String × Value) : String :=
  indentAt w d ++ jsQuote f.1 ++ ": " ++ renderCell f.2

/-- Render one product record at depth `d`. -/
def renderRecord (w d : ℕ) (rec : Record) : String :=
  if rec.isEmpty then "{}"
  else "\x7b\n" ++ String.intercalate ",\n" (rec.map (renderField w (d + 1))) ++ "\n" ++
    indentAt w d ++ "\x7d"

/-- Render a products array at depth `d`. -/
def renderProducts (w d : ℕ) (ps : List Record) : String :=
  if ps.isEmpty then "[]"
  else "[\n" ++
    String.intercalate ",\n" (ps.map (fun r => indentAt w (d + 1) ++ renderRecord w (d + 1) r)) ++
    "\n" ++ indentAt w d ++ "]"

/-- Render one brand group object at depth `d`. -/
def renderGroup (w d : ℕ) (g : BrandGroup) : String :=
  "\x7b\n" ++ indentAt w (d + 1) ++ jsQuote "name" ++ ": " ++
    (match g.name with | none => "null" | some s => jsQuote s) ++ ",\n" ++
    indentAt w (d + 1) ++ jsQuote "products" ++ ": " ++ renderProducts w (d + 1) g.products ++
    "\n" ++ indentAt w d ++ "\x7d"

/-- Render the brands array at depth `d`. -/
def renderBrands (w d : ℕ) (gs : List BrandGroup) : String :=
  if gs.isEmpty then "[]"
  else "[\n" ++
    String.intercalate ",\n" (gs.map (fun g => indentAt w (d + 1) ++ renderGroup w (d + 1) g)) ++
    "\n" ++ indentAt w d ++ "]"

/-- Render the whole output document at indent width `w`. -/
def renderDocAt (w : ℕ) (doc : OutputDoc) : String :=
  "\x7b\n" ++ indentAt w 1 ++ jsQuote "brands" ++ ": " ++ renderBrands w 1 doc.brands ++ "\n\x7d"

/-- Lines 100–101: the file content written on success,
`json.dump(output, f, ensure_ascii=False, indent=2)`. -/
def serializeOutput (doc : OutputDoc) : String := renderDocAt 2 doc

/-- The output file of a whole run: written only when the pipeline
produced a document; a fatal error propagates and nothing is written. -/
def writeOutput (res : Except String OutputDoc) : Option String :=
  match res with
  | .ok doc => some (serializeOutput doc)
  | .error _ => none

/-! ### Claim-side formulations

These definitions follow the wording of the specification (not the
code); the theorems compare them with the embedded code. -/

/-- One exact-match search step of the resolution algorithm as the spec
words it. -/
def exactStep (cols : List String) (n : String) : Option String :=
  if n ∈ cols then some n else none

/-- One case-insensitive whitespace-trimmed search step (first matching
physical column). -/
def ciStep (cols : List String) (n : String) : Option String :=
  cols.find? (fun c => pyLower (pyTrim c) == pyLower (pyTrim n))

/-- The spec's resolution search order: exact then case-insensitive on
the canonical name, then the same pair for each fallback in listed
order. -/
def searchSteps (cols : List String) (target : String) (fallbacks : List String) :
    List (Option String) :=
  [exactStep cols target, ciStep cols target] ++
    fallbacks.flatMap (fun n => [exactStep cols n, ciStep cols n])

/-- The spec's discount normalisation `round(abs(toNumber(v)))`,
missing when unparseable. -/
def claimDiscount (v : Value) : Option ℤ :=
  (toNumericCoerce v).map (fun d => roundDec (decAbs d))

/-- The product sort key as the claim words it: the column obtained by
RESOLVING the `sort_products_by` setting (defaulting to the resolved
ProductDescription column). The code instead uses the setting
verbatim. -/
def specSortKey (cfg : Config) (headers : List String) (descCol : String) : Option String :=
  match cfg.sortProductsBy with
  | none => some descCol
  | some s => if s = "" then some descCol else findCol headers s []

/-- The brand-group order the claim describes: a missing-name group
never precedes a named group, and named groups are ascending
case-insensitively. -/
def claimBrandOrdB (x y : BrandGroup) : Bool :=
  match x.name, y.name with
  | none, some _ => false
  | some a, some b => charListLe (pyLower a).data (pyLower b).data
  | _, _ => true

/-- The record C10 (amended) predicts for one input row: all original
columns in order with their values, except that the brand column is
removed, the resolved discount column is renamed `"Discount"` with the
normalised value, and — when the image step applies — the `"Image"`
field is set from the article code, overwriting a pre-existing
`"Image"` column in place or else appended at the end. -/
def expectedRecord (hs : List String) (bc : String) (dc? : Option String) (doImage : Bool)
    (imageBaseUrl ac : String) (row : List Value) : Record :=
  let imgVal : Value :=
    match buildImage imageBaseUrl (cellAt hs row ac) with
    | none => .vMissing
    | some u => .vStr u
  let base := ((hs.zip row).filter (fun p => p.1 ≠ bc)).map (fun p =>
    if dc? = some p.1 then ("Discount", normalizeDiscountCell p.2)
    else if doImage ∧ p.1 = "Image" then ("Image", imgVal)
    else p)
  if doImage ∧ "Image" ∉ hs then base ++ [("Image", imgVal)] else base

/-! ### Concrete inputs for the counterexamples and witnesses -/

/-- A one-row table whose Brand cell is missing. -/
def tableMissingBrand : Table := ⟨["Brand", "Products"], [[.vMissing, .vStr "Widget"]]⟩

/-- A table carrying both a `"Discount %"` column and a pre-existing
`"Discount"` column: the rename collides. -/
def tableDiscountCollision : Table :=
  ⟨["Brand", "Products", "Discount %", "Discount"],
   [[.vStr "A", .vStr "p", .vStr "-10", .vNum ⟨99, 0⟩]]⟩

/-- A table with a pre-existing `"Image"` column next to an article
code. -/
def tableImageCollision : Table :=
  ⟨["Brand", "Products", "Article code ", "Image"],
   [[.vStr "A", .vStr "p", .vStr "X1", .vStr "original"]]⟩

/-- Two rows of one brand, listed in descending product order. -/
def tableTwoRows : Table :=
  ⟨["Brand", "Products"],
   [[.vStr "A", .vStr "b"], [.vStr "A", .vStr "a"]]⟩

/-- The configuration that sets `sort_products_by` to `"products"`
(a case variant of the `"Products"` header). -/
def configLowerSortKey : Config :=
  ⟨defaultConfig.imageBaseUrl, "Brand", "Products", "Article code ", "Discount %",
   some "products"⟩

/-- A richer table: three brands (one trailing-space, one missing),
discounts in several formats, article codes with and without
extension. -/
def tableRich : Table :=
  ⟨["Brand", "Products", "Article code ", "Discount %"],
   [[.vStr " zeta ", .vStr "b-prod", .vStr "A1.png", .vStr "-10"],
    [.vStr "Alpha", .vStr "B-PROD", .vMissing, .vStr "n/a"],
    [.vStr "Alpha", .vStr "a-prod", .vStr "C3", .vNum ⟨126, 1⟩]]⟩

/-- A table with no column resembling `"Brand"`. -/
def tableNoBrand : Table := ⟨["Products"], [[.vStr "p"]]⟩

/-- The document `convert` produces for `tableRich` under the default
configuration. -/
def richDoc : OutputDoc :=
  ⟨[⟨some "Alpha",
     [[("Products", .vStr "a-prod"), ("Article code ", .vStr "C3"),
       ("Discount", .vNum ⟨13, 0⟩),
       ("Image", .vStr "https://cdn.jsdelivr.net/gh/TVScoundrel/artstory-data-sources@main/product-images/C3.jpg")],
      [("Products", .vStr "B-PROD"), ("Article code ", .vMissing),
       ("Discount", .vMissing), ("Image", .vMissing)]]⟩,
    ⟨some "zeta",
     [[("Products", .vStr "b-prod"), ("Article code ", .vStr "A1.png"),
       ("Discount", .vNum ⟨10, 0⟩),
       ("Image", .vStr "https://cdn.jsdelivr.net/gh/TVScoundrel/artstory-data-sources@main/product-images/A1.png")]]⟩]⟩

/-- The document `convert` produces for `tableTwoRows` under the
default configuration. -/
def twoRowsDoc : OutputDoc :=
  ⟨[⟨some "A", [[("Products", .vStr "a")], [("Products", .vStr "b")]]⟩]⟩

/-! ### Ordering lemmas -/

theorem charListLe_total : ∀ a b : List Char, charListLe a b = true ∨ charListLe b a = true
  | [], _ => Or.inl rfl
  | _ :: _, [] => Or.inr rfl
  | a :: as, b :: bs => by
    rcases lt_trichotomy a b with h | h | h
    · left; simp [charListLe, h]
    · subst h
      rcases charListLe_total as bs with ih | ih
      · left; simp [charListLe, lt_irrefl, ih]
      · right; simp [charListLe, lt_irrefl, ih]
    · right; simp [charListLe, h]

theorem charListLe_trans :
    ∀ a b c : List Char, charListLe a b = true → charListLe b c = true → charListLe a c = true
  | [], _, _, _, _ => rfl
  | _ :: _, [], _, h, _ => by simp [charListLe] at h
  | _ :: _, _ :: _, [], _, h => by simp [charListLe] at h
  | a :: as, b :: bs, c :: cs, h1, h2 => by
    rcases lt_trichotomy a b with hab | hab | hab
    · rcases lt_trichotomy b c with hbc | hbc | hbc
      · simp [charListLe, lt_trans hab hbc]
      · subst hbc; simp [charListLe, hab]
      · simp [charListLe, hbc, lt_asymm hbc] at h2
    · subst hab
      rcases lt_trichotomy a c with hbc | hbc | hbc
      · simp [charListLe, hbc]
      · subst hbc
        simp only [charListLe, lt_self_iff_false, if_false] at h1 h2 ⊢
        exact charListLe_trans as bs cs h1 h2
      · simp [charListLe, hbc, lt_asymm hbc] at h2
    · simp [charListLe, hab, lt_asymm hab] at h1

instance : IsTotal String strLe :=
  ⟨fun a b => charListLe_total a.data b.data⟩

instance : IsTrans String strLe :=
  ⟨fun a b c => charListLe_trans a.data b.data c.data⟩

theorem decNumLe_trans {x y z : Dec}
    (h1 : x.num * 10 ^ y.exp ≤ y.num * 10 ^ x.exp)
    (h2 : y.num * 10 ^ z.exp ≤ z.num * 10 ^ y.exp) :
    x.num * 10 ^ z.exp ≤ z.num * 10 ^ x.exp := by
  have hy : (0 : ℤ) < 10 ^ y.exp := pow_pos (by norm_num) _
  have hxp : (0 : ℤ) ≤ 10 ^ x.exp := le_of_lt (pow_pos (by norm_num) _)
  have hzp : (0 : ℤ) ≤ 10 ^ z.exp := le_of_lt (pow_pos (by norm_num) _)
  have h1' := mul_le_mul_of_nonneg_right h1 hzp
  have h2' := mul_le_mul_of_nonneg_right h2 hxp
  have hchain : x.num * 10 ^ z.exp * 10 ^ y.exp ≤ z.num * 10 ^ x.exp * 10 ^ y.exp := by
    calc x.num * 10 ^ z.exp * 10 ^ y.exp = x.num * 10 ^ y.exp * 10 ^ z.exp := by ring
      _ ≤ y.num * 10 ^ x.exp * 10 ^ z.exp := h1'
      _ = y.num * 10 ^ z.exp * 10 ^ x.exp := by ring
      _ ≤ z.num * 10 ^ y.exp * 10 ^ x.exp := h2'
      _ = z.num * 10 ^ x.exp * 10 ^ y.exp := by ring
  exact le_of_mul_le_mul_right hchain hy

theorem keyLeB_total : ∀ x y : SortKey, keyLeB x y = true ∨ keyLeB y x = true
  | .kStr a, .kStr b => by simpa [keyLeB] using charListLe_total a b
  | .kStr _, .kNum _ => Or.inl rfl
  | .kStr _, .kNone => Or.inl rfl
  | .kNum _, .kStr _ => Or.inr rfl
  | .kNum _, .kNum _ => by simpa [keyLeB, decide_eq_true_eq] using le_total _ _
  | .kNum _, .kNone => Or.inl rfl
  | .kNone, .kStr _ => Or.inr rfl
  | .kNone, .kNum _ => Or.inr rfl
  | .kNone, .kNone => Or.inl rfl

theorem keyLeB_trans :
    ∀ x y z : SortKey, keyLeB x y = true → keyLeB y z = true → keyLeB x z = true
  | .kStr _, .kStr _, .kStr _, h1, h2 => by
    simp only [keyLeB] at h1 h2 ⊢
    exact charListLe_trans _ _ _ h1 h2
  | .kStr _, _, .kNum _, _, _ => rfl
  | .kStr _, _, .kNone, _, _ => rfl
  | .kStr _, .kNum _, .kStr _, _, h2 => by simp [keyLeB] at h2
  | .kStr _, .kNone, .kStr _, _, h2 => by simp [keyLeB] at h2
  | .kNum _, .kStr _, _, h1, _ => by simp [keyLeB] at h1
  | .kNum _, .kNum _, .kStr _, _, h2 => by simp [keyLeB] at h2
  | .kNum a, .kNum b, .kNum c, h1, h2 => by
    simp only [keyLeB, decide_eq_true_eq] at h1 h2 ⊢
    exact decNumLe_trans h1 h2
  | .kNum _, .kNum _, .kNone, _, _ => rfl
  | .kNum _, .kNone, .kStr _, _, h2 => by simp [keyLeB] at h2
  | .kNum _, .kNone, .kNum _, _, h2 => by simp [keyLeB] at h2
  | .kNum _, .kNone, .kNone, _, _ => rfl
  | .kNone, .kStr _, _, h1, _ => by simp [keyLeB] at h1
  | .kNone, .kNum _, _, h1, _ => by simp [keyLeB] at h1
  | .kNone, .kNone, .kStr _, _, h2 => by simp [keyLeB] at h2
  | .kNone, .kNone, .kNum _, _, h2 => by simp [keyLeB] at h2
  | .kNone, .kNone, .kNone, _, _ => rfl

instance (o : Bool) (hs : List String) (sk : String) : IsTotal (List Value) (rowLe o hs sk) :=
  ⟨fun _ _ => keyLeB_total _ _⟩

instance (o : Bool) (hs : List String) (sk : String) : IsTrans (List Value) (rowLe o hs sk) :=
  ⟨fun _ _ _ h1 h2 => keyLeB_trans _ _ _ h1 h2⟩

theorem brandLe_total : ∀ x y : BrandGroup, brandLe x y ∨ brandLe y x := by
  intro x y
  rcases hx : x.name.isNone with _ | _ <;> rcases hy : y.name.isNone with _ | _
  · rcases charListLe_total (pyLower (x.name.getD "")).data (pyLower (y.name.getD "")).data
      with h | h
    · exact Or.inl (Or.inr ⟨by rw [hx, hy], h⟩)
    · exact Or.inr (Or.inr ⟨by rw [hx, hy], h⟩)
  · exact Or.inl (Or.inl ⟨hx, hy⟩)
  · exact Or.inr (Or.inl ⟨hy, hx⟩)
  · rcases charListLe_total (pyLower (x.name.getD "")).data (pyLower (y.name.getD "")).data
      with h | h
    · exact Or.inl (Or.inr ⟨by rw [hx, hy], h⟩)
    · exact Or.inr (Or.inr ⟨by rw [hx, hy], h⟩)

theorem brandLe_trans : ∀ x y z : BrandGroup, brandLe x y → brandLe y z → brandLe x z := by
  intro x y z h1 h2
  rcases h1 with ⟨hx1, hy1⟩ | ⟨he1, hs1⟩ <;> rcases h2 with ⟨hy2, hz2⟩ | ⟨he2, hs2⟩
  · rw [hy1] at hy2; cases hy2
  · exact Or.inl ⟨hx1, he2 ▸ hy1⟩
  · exact Or.inl ⟨he1 ▸ hy2, hz2⟩
  · exact Or.inr ⟨he1.trans he2, charListLe_trans _ _ _ hs1 hs2⟩

instance : IsTotal BrandGroup brandLe := ⟨brandLe_total⟩

instance : IsTrans BrandGroup brandLe := ⟨brandLe_trans⟩

/-! ### Structure of a successful run -/

theorem convert_ok_shape {cfg : Config} {t : Table} {doc : OutputDoc}
    (h : convert cfg t = .ok doc) :
    ∃ bc descCol,
      findCol t.headers cfg.brandCol [] = some bc ∧
      resolveDesc cfg t bc = some descCol ∧
      (processedTable cfg t bc).headers.count bc = 1 ∧
      ¬ 1 < (processedTable cfg t bc).headers.count (sortKeyName cfg descCol) ∧
      doc = ⟨List.insertionSort brandLe
        (buildGroups (processedTable cfg t bc) bc (sortKeyName cfg descCol))⟩ := by
  unfold convert at h
  cases hbc : findCol t.headers cfg.brandCol [] with
  | none => simp only [hbc] at h; exact absurd h (by simp)
  | some bc =>
    simp only [hbc] at h
    cases hdc : resolveDesc cfg t bc with
    | none => simp only [hdc] at h; exact absurd h (by simp)
    | some descCol =>
      simp only [hdc] at h
      by_cases h1 : (processedTable cfg t bc).headers.count bc ≠ 1
      · simp only [if_pos h1] at h; exact absurd h (by simp)
      · by_cases h2 : 1 < (processedTable cfg t bc).headers.count (sortKeyName cfg descCol)
        · simp only [if_neg h1, if_pos h2] at h; exact absurd h (by simp)
        · simp only [if_neg h1, if_neg h2, Except.ok.injEq] at h
          exact ⟨bc, descCol, rfl, hdc, by omega, h2, h.symm⟩

theorem applyDiscount_rows_length (dc? : Option String) (t : Table) :
    (applyDiscount dc? t).rows.length = t.rows.length := by
  cases dc? <;> simp [applyDiscount]

theorem applyImage_rows_length (u : String) (ac? : Option String) (t : Table) :
    (applyImage u ac? t).rows.length = t.rows.length := by
  cases ac? with
  | none => rfl
  | some ac =>
    simp only [applyImage]
    split
    · split <;> simp
    · rfl

theorem processedTable_rows_length (cfg : Config) (t : Table) (bc : String) :
    (processedTable cfg t bc).rows.length = t.rows.length := by
  unfold processedTable
  rw [applyImage_rows_length, applyDiscount_rows_length]
  simp [stringifyBrand]

/-! ### Counting helpers -/

theorem sum_map_add (g h : String → ℕ) : ∀ ks : List String,
    (ks.map (fun k => g k + h k)).sum = (ks.map g).sum + (ks.map h).sum
  | [] => rfl
  | k :: ks => by
    simp only [List.map_cons, List.sum_cons, sum_map_add g h ks]
    omega

theorem sum_indicator_zero (a : String) : ∀ ks : List String, a ∉ ks →
    (ks.map (fun k => if a = k then 1 else 0)).sum = 0
  | [], _ => rfl
  | k :: ks, h => by
    have hne : a ≠ k := fun he => h (he ▸ List.mem_cons_self k ks)
    have ih := sum_indicator_zero a ks (fun hm => h (List.mem_cons_of_mem k hm))
    simp [hne, ih]

theorem sum_indicator_one (a : String) : ∀ ks : List String, ks.Nodup → a ∈ ks →
    (ks.map (fun k => if a = k then 1 else 0)).sum = 1
  | [], _, hm => absurd hm (List.not_mem_nil a)
  | k :: ks, hn, hm => by
    rcases List.mem_cons.mp hm with he | hm2
    · subst he
      have h0 := sum_indicator_zero a ks (List.nodup_cons.mp hn).1
      simp [h0]
    · have hne : a ≠ k := fun he => (List.nodup_cons.mp hn).1 (he ▸ hm2)
      have ih := sum_indicator_one a ks (List.nodup_cons.mp hn).2 hm2
      simp [hne, ih]

theorem sum_filter_lengths {α : Type} (f : α → String) :
    ∀ (l : List α) (ks : List String), ks.Nodup → (∀ x ∈ l, f x ∈ ks) →
      (ks.map (fun k => (l.filter (fun x => f x == k)).length)).sum = l.length
  | [], ks, _, _ => by simp
  | x :: l, ks, hn, hmem => by
    have hx : f x ∈ ks := hmem x (List.mem_cons_self x l)
    have hrest : ∀ y ∈ l, f y ∈ ks := fun y hy => hmem y (List.mem_cons_of_mem x hy)
    have hsplit : ∀ k : String,
        ((x :: l).filter (fun y => f y == k)).length =
          (l.filter (fun y => f y == k)).length + (if f x = k then 1 else 0) := by
      intro k
      by_cases h : f x = k <;> simp [List.filter_cons, h]
    calc (ks.map (fun k => ((x :: l).filter (fun y => f y == k)).length)).sum
        = (ks.map (fun k =>
            (l.filter (fun y => f y == k)).length + (if f x = k then 1 else 0))).sum := by
          exact congrArg List.sum (List.map_congr_left (fun k _ => hsplit k))
      _ = (ks.map (fun k => (l.filter (fun y => f y == k)).length)).sum +
            (ks.map (fun k => if f x = k then 1 else 0)).sum := sum_map_add _ _ ks
      _ = l.length + 1 := by
          rw [sum_filter_lengths f l ks hn hrest, sum_indicator_one (f x) ks hn hx]
      _ = (x :: l).length := by simp [Nat.add_comm]

theorem buildGroups_keys_nodup (t : Table) (bc : String) :
    (List.insertionSort strLe ((t.rows.map (brandStrOfRow t.headers bc)).dedup)).Nodup :=
  ((List.perm_insertionSort strLe _).nodup_iff).mpr (List.nodup_dedup _)

theorem key_mem_keys (t : Table) (bc : String) {r : List Value} (hr : r ∈ t.rows) :
    brandStrOfRow t.headers bc r ∈
      List.insertionSort strLe ((t.rows.map (brandStrOfRow t.headers bc)).dedup) :=
  (List.Perm.mem_iff (List.perm_insertionSort strLe _)).mpr
    (List.mem_dedup.mpr (List.mem_map_of_mem _ hr))

theorem buildGroups_sum_lengths (t : Table) (bc sk : String) :
    ((buildGroups t bc sk).map (fun g => g.products.length)).sum = t.rows.length := by
  unfold buildGroups
  simp only [List.map_map, Function.comp_def]
  have hpt : ∀ k ∈ List.insertionSort strLe ((t.rows.map (brandStrOfRow t.headers bc)).dedup),
      ((if sk ∈ t.headers then
          List.insertionSort (rowLe (dtypeObject t sk) t.headers sk)
            (t.rows.filter (fun r => brandStrOfRow t.headers bc r == k))
        else t.rows.filter (fun r => brandStrOfRow t.headers bc r == k)).map
          (toRecord t.headers bc)).length =
        (t.rows.filter (fun r => brandStrOfRow t.headers bc r == k)).length := by
    intro k _
    rw [List.length_map]
    split
    · exact List.length_insertionSort _ _
    · rfl
  rw [List.map_congr_left hpt]
  exact sum_filter_lengths (brandStrOfRow t.headers bc) t.rows _
    (buildGroups_keys_nodup t bc) (fun r hr => key_mem_keys t bc hr)

theorem buildGroups_row_unique (t : Table) (bc sk : String) :
    ∀ r ∈ t.rows,
      ((buildGroups t bc sk).countP
        (fun g => g.name == some (brandStrOfRow t.headers bc r))) = 1 := by
  intro r hr
  unfold buildGroups
  rw [List.countP_map]
  exact List.count_eq_one_of_mem (buildGroups_keys_nodup t bc) (key_mem_keys t bc hr)

/-! ### C2: the resolution search order -/

theorem findColFallbacks_eq (cols : List String) : ∀ fbs : List String,
    findColFallbacks cols fbs =
      (fbs.flatMap (fun n => [exactStep cols n, ciStep cols n])).findSome? id
  | [] => rfl
  | n :: fbs => by
    by_cases h : n ∈ cols
    · simp [findColFallbacks, exactStep, h, List.findSome?]
    · cases hf : cols.find? (fun c => pyLower (pyTrim c) == pyLower (pyTrim n)) with
      | some c => simp [findColFallbacks, exactStep, ciStep, h, hf, List.findSome?]
      | none =>
        simp only [findColFallbacks, exactStep, ciStep, h, hf, if_false,
          List.flatMap_cons, List.findSome?_cons, findColFallbacks_eq cols fbs]
        simp [h, hf]

/-- **C2.** `find_col` returns exactly the first hit of the spec's
search order: exact match on the canonical name, then case-insensitive
whitespace-trimmed match on the canonical name, then the same two steps
for each fallback in listed order; `none` when no step matches. -/
theorem c2_resolution_search_order (cols : List String) (target : String)
    (fallbacks : List String) :
    findCol cols target fallbacks = (searchSteps cols target fallbacks).findSome? id := by
  by_cases h : target ∈ cols
  · simp [findCol, searchSteps, exactStep, h, List.findSome?]
  · cases hf : cols.find? (fun c => pyLower (pyTrim c) == pyLower (pyTrim target)) with
    | some c => simp [findCol, searchSteps, exactStep, ciStep, h, hf, List.findSome?]
    | none =>
      simp [findCol, searchSteps, exactStep, ciStep, h, hf, List.findSome?,
        findColFallbacks_eq cols fallbacks]

/-! ### C1: a missing Brand cell does not stay missing -/

/-- **C1.** Against the claim, a missing Brand cell does NOT stay
missing: line 50's `.astype(str)` turns `NaN` into the literal string
`"nan"` before grouping, so the group of a brandless row is named
`"nan"` (line 92's `pd.isna(brand_name)` guard can no longer see a
missing value). The claim is right about the intent — that guard exists
precisely to emit `null` — but the code reaches it too late. -/
theorem c1_missing_brand_becomes_nan :
    convert defaultConfig tableMissingBrand =
      .ok ⟨[⟨some "nan", [[("Products", Value.vStr "Widget")]]⟩]⟩ := by rfl

/-! ### C4: image URL construction -/

/-- **C4.** `build_image` under a non-empty base URL: a missing cell or
a code blank after trimming yields no URL; a trimmed code whose
lowercase form ends in `.jpg`, `.jpeg`, `.png` or `.webp` yields the
base URL with the trimmed code and nothing appended; any other code
yields the base URL with the trimmed code and `".jpg"` appended. -/
theorem c4_build_image (baseUrl : String) (v : Value) (_hbase : baseUrl ≠ "") :
    buildImage baseUrl v =
      if v = .vMissing then none
      else if pyTrim (pyStr v) = "" then none
      else if endsWithL (pyLower (pyTrim (pyStr v))).data ".jpg".data ∨
          endsWithL (pyLower (pyTrim (pyStr v))).data ".jpeg".data ∨
          endsWithL (pyLower (pyTrim (pyStr v))).data ".png".data ∨
          endsWithL (pyLower (pyTrim (pyStr v))).data ".webp".data then
        some (baseUrl ++ pyTrim (pyStr v))
      else some (baseUrl ++ pyTrim (pyStr v) ++ ".jpg") := by
  cases v with
  | vMissing => rfl
  | vStr s => simp [buildImage]
  | vNum d => simp [buildImage]

/-- Witness for C4 at a concrete input. -/
theorem c4_build_image_witness :
    ("https://x/" : String) ≠ "" ∧
      buildImage "https://x/" (.vStr " ABC1.PNG ") =
        if Value.vStr " ABC1.PNG " = .vMissing then none
        else if pyTrim (pyStr (.vStr " ABC1.PNG ")) = "" then none
        else if endsWithL (pyLower (pyTrim (pyStr (.vStr " ABC1.PNG ")))).data ".jpg".data ∨
            endsWithL (pyLower (pyTrim (pyStr (.vStr " ABC1.PNG ")))).data ".jpeg".data ∨
            endsWithL (pyLower (pyTrim (pyStr (.vStr " ABC1.PNG ")))).data ".png".data ∨
            endsWithL (pyLower (pyTrim (pyStr (.vStr " ABC1.PNG ")))).data ".webp".data then
          some ("https://x/" ++ pyTrim (pyStr (.vStr " ABC1.PNG ")))
        else some ("https://x/" ++ pyTrim (pyStr (.vStr " ABC1.PNG ")) ++ ".jpg") :=
  ⟨by decide, c4_build_image "https://x/" (.vStr " ABC1.PNG ") (by decide)⟩

/-! ### C5: grouping is a partition -/

/-- **C5.** Grouping partitions the input: on every successful run the
product counts over all brand groups sum to the number of input rows,
and at the grouping step (for any table) every row falls into exactly
one brand group — the one keyed by its own brand value. -/
theorem c5_grouping_partition {cfg : Config} {t : Table} {doc : OutputDoc}
    (h : convert cfg t = .ok doc) :
    ((doc.brands.map (fun g => g.products.length)).sum = t.rows.length) ∧
    (∀ (t2 : Table) (bc sk : String), ∀ r ∈ t2.rows,
      ((buildGroups t2 bc sk).countP
        (fun g => g.name == some (brandStrOfRow t2.headers bc r))) = 1) := by
  constructor
  · obtain ⟨bc, descCol, hbc, hdc, hcnt, hsk, hdoc⟩ := convert_ok_shape h
    subst hdoc
    have hperm := (List.perm_insertionSort brandLe
      (buildGroups (processedTable cfg t bc) bc (sortKeyName cfg descCol))).map
        (fun g : BrandGroup => g.products.length)
    rw [hperm.sum_eq, buildGroups_sum_lengths]
    exact processedTable_rows_length cfg t bc
  · exact fun t2 bc sk r hr => buildGroups_row_unique t2 bc sk r hr

/-- Witness for C5 at a concrete input. -/
theorem c5_grouping_partition_witness :
    ((twoRowsDoc.brands.map (fun g => g.products.length)).sum = tableTwoRows.rows.length) :=
  (c5_grouping_partition (show convert defaultConfig tableTwoRows = .ok twoRowsDoc by rfl)).1

/-! ### C6: brand group ordering -/

theorem brandLe_implies_claimOrd {x y : BrandGroup} (h : brandLe x y) :
    claimBrandOrdB x y = true := by
  rcases h with ⟨hx, hy⟩ | ⟨he, hs⟩
  · unfold claimBrandOrdB
    cases hxn : x.name with
    | none => rw [hxn] at hx; simp at hx
    | some a =>
      cases hyn : y.name with
      | none => rfl
      | some b => rw [hyn] at hy; simp at hy
  · unfold claimBrandOrdB
    cases hxn : x.name with
    | none =>
      cases hyn : y.name with
      | none => rfl
      | some b => rw [hxn, hyn] at he; simp at he
    | some a =>
      cases hyn : y.name with
      | none => rfl
      | some b =>
        rw [hxn, hyn] at hs
        simpa [strLe] using hs

/-- **C6.** In every output document the brand groups are ordered with
every missing-named group strictly after all named groups, and the
named groups ascending case-insensitively by name. -/
theorem c6_brand_group_order {cfg : Config} {t : Table} {doc : OutputDoc}
    (h : convert cfg t = .ok doc) :
    List.Pairwise (fun x y => claimBrandOrdB x y = true) doc.brands := by
  obtain ⟨bc, descCol, hbc, hdc, hcnt, hsk, hdoc⟩ := convert_ok_shape h
  subst hdoc
  exact (List.sorted_insertionSort brandLe _).imp brandLe_implies_claimOrd

/-- Witness for C6 at a concrete input. -/
theorem c6_brand_group_order_witness :
    List.Pairwise (fun x y => claimBrandOrdB x y = true) richDoc.brands :=
  c6_brand_group_order (show convert defaultConfig tableRich = .ok richDoc by rfl)

/-! ### C8: fatal configuration errors -/

/-- **C8.** An unresolvable Brand column aborts the run with the
Brand-naming error; an unresolvable and uninferable ProductDescription
column aborts with the description-naming error; in either case no
output file content is produced at all. -/
theorem c8_fatal_configuration (cfg : Config) (t : Table) :
    (findCol t.headers cfg.brandCol [] = none →
      convert cfg t = .error "Could not find a 'Brand' column." ∧
      writeOutput (convert cfg t) = none) ∧
    (∀ bc, findCol t.headers cfg.brandCol [] = some bc →
      resolveDesc cfg t bc = none →
      convert cfg t = .error "Could not infer a product description column." ∧
      writeOutput (convert cfg t) = none) := by
  constructor
  · intro hb
    have hconv : convert cfg t = .error "Could not find a 'Brand' column." := by
      unfold convert
      simp only [hb]
    exact ⟨hconv, by rw [hconv]; rfl⟩
  · intro bc hb hd
    have hconv : convert cfg t = .error "Could not infer a product description column." := by
      unfold convert
      simp only [hb, hd]
    exact ⟨hconv, by rw [hconv]; rfl⟩

/-- Witness for C8 at a concrete input. -/
theorem c8_fatal_configuration_witness :
    convert defaultConfig tableNoBrand = .error "Could not find a 'Brand' column." ∧
      writeOutput (convert defaultConfig tableNoBrand) = none :=
  (c8_fatal_configuration defaultConfig tableNoBrand).1 (by rfl)

/-! ### C9: serialisation -/

theorem escapeChar_safe {c : Char} (h32 : 32 ≤ c.toNat) (hq : c ≠ '"') (hb : c ≠ '\\') :
    escapeChar c = String.singleton c := by
  have hn : c ≠ '\n' := fun he => absurd (he ▸ h32) (by decide)
  have ht : c ≠ '\t' := fun he => absurd (he ▸ h32) (by decide)
  have hr : c ≠ '\r' := fun he => absurd (he ▸ h32) (by decide)
  have h8 : c ≠ '\x08' := fun he => absurd (he ▸ h32) (by decide)
  have hc : c ≠ '\x0c' := fun he => absurd (he ▸ h32) (by decide)
  unfold escapeChar
  rw [if_neg hq, if_neg hb, if_neg hn, if_neg ht, if_neg hr, if_neg h8, if_neg hc,
    if_neg (by omega : ¬c.toNat < 32)]

theorem escapeList_safe : ∀ cs : List Char,
    (∀ c ∈ cs, 32 ≤ c.toNat ∧ c ≠ '"' ∧ c ≠ '\\') → escapeList cs = cs
  | [], _ => rfl
  | c :: cs, h => by
    obtain ⟨h32, hq, hb⟩ := h c (List.mem_cons_self c cs)
    have ih := escapeList_safe cs (fun x hx => h x (List.mem_cons_of_mem c hx))
    simp only [escapeList, List.flatMap_cons] at ih ⊢
    rw [escapeChar_safe h32 hq hb, ih]
    rfl

/-- **C9.** Serialisation semantics of a successful run: the file
content is the width-2 instance of the renderer; indentation at depth
`d` is `2 * d` spaces; a string whose characters are all ordinary (not
the quote, the backslash or a control character) is rendered verbatim —
in particular every non-ASCII character passes through unescaped, never
as a `\uXXXX` escape — and a missing value renders as `null` rather
than being omitted. -/
theorem c9_serialization :
    (∀ doc : OutputDoc, writeOutput (.ok doc) = some (renderDocAt 2 doc)) ∧
    (∀ d : ℕ, indentAt 2 d = String.mk (List.replicate (2 * d) ' ')) ∧
    (∀ s : String, (∀ c ∈ s.data, 32 ≤ c.toNat ∧ c ≠ '"' ∧ c ≠ '\\') →
      jsQuote s = "\"" ++ s ++ "\"") ∧
    (∀ c : Char, 128 ≤ c.toNat → escapeChar c = String.singleton c) ∧
    renderCell .vMissing = "null" := by
  refine ⟨fun _ => rfl, fun _ => rfl, fun s hs => ?_, fun c hc => ?_, rfl⟩
  · unfold jsQuote
    rw [escapeList_safe s.data hs]
  · exact escapeChar_safe (by omega)
      (fun he => absurd (he ▸ hc) (by decide))
      (fun he => absurd (he ▸ hc) (by decide))

/-- Witness for C9 at concrete inputs: the non-ASCII string `"héllo"`
renders verbatim. -/
theorem c9_serialization_witness :
    jsQuote "héllo" = "\"" ++ "héllo" ++ "\"" :=
  c9_serialization.2.2.1 "héllo" (by decide)

/-! ### C3: rounding lemmas -/

theorem roundInt_nonneg {n D : ℤ} (hn : 0 ≤ n) (hD : 0 < D) : 0 ≤ roundInt n D := by
  unfold roundInt
  have hf : 0 ≤ n / D := Int.ediv_nonneg hn (le_of_lt hD)
  split_ifs <;> omega

theorem roundInt_nonpos {n D : ℤ} (hn : n ≤ 0) (hD : 0 < D) : roundInt n D ≤ 0 := by
  have h0 := Int.ediv_add_emod n D
  have hr0 := Int.emod_nonneg n (ne_of_gt hD)
  have hrD := Int.emod_lt_of_pos n hD
  have hfle : n / D ≤ 0 := by
    by_contra hpos
    push_neg at hpos
    have h1 : (1 : ℤ) ≤ n / D := hpos
    have h2 : D * 1 ≤ D * (n / D) := mul_le_mul_of_nonneg_left h1 (le_of_lt hD)
    omega
  have hneg : 0 < n % D → n / D + 1 ≤ 0 := by
    intro hrpos
    by_contra hge
    push_neg at hge
    have h1 : n / D = 0 := by omega
    rw [h1] at h0
    omega
  unfold roundInt
  split_ifs with h1 h2 h3 <;> [skip; skip; skip; skip] <;> first
    | exact hfle
    | (apply hneg; omega)

theorem roundInt_neg {n D : ℤ} (hD : 0 < D) : roundInt (-n) D = -roundInt n D := by
  have h0 := Int.ediv_add_emod n D
  have hr0 := Int.emod_nonneg n (ne_of_gt hD)
  have hrD := Int.emod_lt_of_pos n hD
  rcases eq_or_lt_of_le hr0 with hr | hr
  · have hq : -n / D = -(n / D) ∧ -n % D = 0 := by
      rw [Int.ediv_emod_unique hD]
      refine ⟨by nlinarith, le_refl 0, hD⟩
    unfold roundInt
    rw [hq.1, hq.2, ← hr]
    split_ifs <;> omega
  · have hq : -n / D = -(n / D) - 1 ∧ -n % D = D - n % D := by
      rw [Int.ediv_emod_unique hD]
      refine ⟨by nlinarith, by omega, by omega⟩
    unfold roundInt
    rw [hq.1, hq.2]
    split_ifs <;> omega

/-- round-then-abs equals abs-then-round for half-to-even rounding. -/
theorem roundDec_abs (d : Dec) : roundDec (decAbs d) = |roundDec d| := by
  unfold roundDec decAbs
  have hD : (0 : ℤ) < 10 ^ d.exp := pow_pos (by norm_num) _
  rcases le_or_lt 0 d.num with h | h
  · simp only [abs_of_nonneg h]
    rw [abs_of_nonneg (roundInt_nonneg h hD)]
  · simp only [abs_of_neg h]
    rw [roundInt_neg hD, abs_of_nonpos (roundInt_nonpos (le_of_lt h) hD)]

/-! ### Resolution returns a real column -/

theorem findColFallbacks_mem {cols : List String} : ∀ {fbs : List String} {c : String},
    findColFallbacks cols fbs = some c → c ∈ cols
  | [], _, h => by simp [findColFallbacks] at h
  | n :: fbs, c, h => by
    by_cases hn : n ∈ cols
    · simp only [findColFallbacks, if_pos hn, Option.some.injEq] at h
      exact h ▸ hn
    · cases hf : cols.find? (fun x => pyLower (pyTrim x) == pyLower (pyTrim n)) with
      | some x =>
        simp only [findColFallbacks, if_neg hn, hf, Option.some.injEq] at h
        exact h ▸ List.mem_of_find?_eq_some hf
      | none =>
        simp only [findColFallbacks, if_neg hn, hf] at h
        exact findColFallbacks_mem h

theorem findCol_mem {cols : List String} {target : String} {fbs : List String} {c : String}
    (h : findCol cols target fbs = some c) : c ∈ cols := by
  unfold findCol at h
  by_cases ht : target ∈ cols
  · simp only [if_pos ht, Option.some.injEq] at h
    exact h ▸ ht
  · simp only [if_neg ht] at h
    cases hf : cols.find? (fun x => pyLower (pyTrim x) == pyLower (pyTrim target)) with
    | some x =>
      rw [hf] at h
      simp only [Option.some.injEq] at h
      exact h ▸ List.mem_of_find?_eq_some hf
    | none =>
      rw [hf] at h
      exact findColFallbacks_mem h

/-! ### Dictionary (record) lemmas -/

theorem keysAux_mem : ∀ (l seen : List String) (k : String),
    k ∈ keysAux l seen ↔ k ∈ l ∧ k ∉ seen
  | [], seen, k => by simp [keysAux]
  | x :: l, seen, k => by
    by_cases hx : x ∈ seen
    · rw [keysAux, if_pos hx, keysAux_mem l seen k]
      constructor
      · exact fun h => ⟨List.mem_cons_of_mem x h.1, h.2⟩
      · rintro ⟨h1, h2⟩
        rcases List.mem_cons.mp h1 with he | hm
        · exact absurd (he ▸ hx) h2
        · exact ⟨hm, h2⟩
    · rw [keysAux, if_neg hx]
      constructor
      · intro hm
        rcases List.mem_cons.mp hm with he | hm2
        · subst he
          exact ⟨List.mem_cons_self k l, hx⟩
        · have h3 := (keysAux_mem l (x :: seen) k).mp hm2
          exact ⟨List.mem_cons_of_mem x h3.1, fun hs => h3.2 (List.mem_cons_of_mem x hs)⟩
      · rintro ⟨h1, h2⟩
        rcases List.mem_cons.mp h1 with he | hm
        · exact he ▸ List.mem_cons_self k _
        · by_cases hxx : k = x
          · exact hxx ▸ List.mem_cons_self k _
          · exact List.mem_cons_of_mem x ((keysAux_mem l (x :: seen) k).mpr
              ⟨hm, fun hs => (List.mem_cons.mp hs).elim hxx h2⟩)

theorem find?_beq_of_mem : ∀ {l : List String} {k : String}, k ∈ l →
    l.find? (fun x => x == k) = some k
  | x :: l, k, h => by
    by_cases hx : x = k
    · subst hx
      simp [List.find?]
    · have hm : k ∈ l := (List.mem_cons.mp h).resolve_left (fun he => hx he.symm)
      have hne : (x == k) = false := beq_eq_false_iff_ne.mpr hx
      simp only [List.find?, hne]
      exact find?_beq_of_mem hm

theorem recLookup_dictOfPairs (ps : List (String × Value)) (k : String)
    (hk : k ∈ ps.map Prod.fst) :
    recLookup (dictOfPairs ps) k = some (lookupLast ps k) := by
  unfold recLookup dictOfPairs
  rw [List.find?_map]
  have hmem : k ∈ keysAux (ps.map Prod.fst) [] :=
    (keysAux_mem _ _ _).mpr ⟨hk, by simp⟩
  have hfind : (keysAux (ps.map Prod.fst) []).find? (fun x => x == k) = some k :=
    find?_beq_of_mem hmem
  have : (keysAux (ps.map Prod.fst) []).find?
      ((fun p : String × Value => p.1 == k) ∘ fun k' => (k', lookupLast ps k')) = some k :=
    hfind
  rw [this]
  rfl

theorem keysAux_of_nodup : ∀ (l seen : List String), l.Nodup → (∀ x ∈ l, x ∉ seen) →
    keysAux l seen = l
  | [], _, _, _ => rfl
  | x :: l, seen, hn, hd => by
    rw [keysAux, if_neg (hd x (List.mem_cons_self x l))]
    congr 1
    apply keysAux_of_nodup l (x :: seen) (List.nodup_cons.mp hn).2
    intro y hy
    intro hmem
    rcases List.mem_cons.mp hmem with he | hs
    · exact (List.nodup_cons.mp hn).1 (he ▸ hy)
    · exact hd y (List.mem_cons_of_mem x hy) hs

theorem lookupLast_of_nodup : ∀ (ps : List (String × Value)) (p : String × Value),
    (ps.map Prod.fst).Nodup → p ∈ ps → lookupLast ps p.1 = p.2
  | q :: ps, p, hn, hp => by
    rcases List.mem_cons.mp hp with he | hm
    · subst he
      have hnot : ∀ q2 ∈ ps, (q2.1 == p.1) = false := by
        intro q2 hq2
        apply beq_eq_false_iff_ne.mpr
        intro he2
        exact (List.nodup_cons.mp hn).1 (he2 ▸ List.mem_map_of_mem Prod.fst hq2)
      unfold lookupLast
      rw [List.filter_cons_of_pos (by simp), List.filter_eq_nil_iff.mpr
        (by intro q2 hq2; simp [hnot q2 hq2])]
      simp
    · have hne : (q.1 == p.1) = false := by
        apply beq_eq_false_iff_ne.mpr
        intro he2
        exact (List.nodup_cons.mp hn).1 (he2 ▸ List.mem_map_of_mem Prod.fst hm)
      have ih := lookupLast_of_nodup ps p (List.nodup_cons.mp hn).2 hm
      unfold lookupLast at ih ⊢
      rw [List.filter_cons_of_neg (by simp [hne])]
      exact ih

theorem dictOfPairs_self (ps : List (String × Value)) (hn : (ps.map Prod.fst).Nodup) :
    dictOfPairs ps = ps := by
  unfold dictOfPairs
  rw [keysAux_of_nodup _ [] hn (by simp)]
  rw [List.map_map]
  have : ∀ p ∈ ps, ((fun k => (k, lookupLast ps k)) ∘ Prod.fst) p = id p := by
    intro p hp
    have := lookupLast_of_nodup ps p hn hp
    simp [Function.comp, this]
  rw [List.map_congr_left this, List.map_id]

/-! ### Cell updates seen through `zip` -/

theorem setCell_nil_row (hs : List String) (c : String) (f : Value → Value) :
    setCell hs [] c f = [] := by
  unfold setCell
  cases hs.indexOf? c <;> simp

theorem setCell_cons_self (hs : List String) (c : String) (v : Value) (r : List Value)
    (f : Value → Value) : setCell (c :: hs) (v :: r) c f = f v :: r := by
  unfold setCell
  rw [List.indexOf?, List.findIdx?_cons]
  simp

theorem setCell_cons_ne (hs : List String) {h c : String} (hne : h ≠ c) (v : Value)
    (r : List Value) (f : Value → Value) :
    setCell (h :: hs) (v :: r) c f = v :: setCell hs r c f := by
  unfold setCell
  have hb : (h == c) = false := beq_eq_false_iff_ne.mpr hne
  rw [List.indexOf?, List.findIdx?_cons, hb]
  simp only [Bool.false_eq_true, if_false, List.findIdx?_succ]
  rw [List.indexOf?]
  cases hf : List.findIdx? (fun x => x == c) hs with
  | none => simp
  | some i => simp

theorem zip_map_if_id {hs : List String} {r : List Value} {c : String}
    (g : String × Value → String × Value) (hne : c ∉ hs) :
    (hs.zip r).map (fun p => if p.1 = c then g p else p) = hs.zip r := by
  have h1 : ∀ p ∈ hs.zip r, (if p.1 = c then g p else p) = p := by
    rintro ⟨a, b⟩ hp
    rw [if_neg]
    intro he
    exact hne (he ▸ (List.of_mem_zip hp).1)
  rw [List.map_congr_left h1]
  exact List.map_id _

theorem zip_setCell : ∀ (hs : List String) (r : List Value) (c : String) (f : Value → Value),
    hs.count c ≤ 1 →
    hs.zip (setCell hs r c f) = (hs.zip r).map (fun p => if p.1 = c then (p.1, f p.2) else p)
  | [], r, c, f, _ => by simp [setCell]
  | h :: hs, [], c, f, _ => by simp [setCell_nil_row]
  | h :: hs, v :: r, c, f, hcount => by
    by_cases he : h = c
    · subst he
      have hnotin : h ∉ hs := by
        rw [List.count_cons_self] at hcount
        exact List.count_eq_zero.mp (by omega)
      rw [setCell_cons_self]
      simp only [List.zip_cons_cons, List.map_cons, if_pos rfl]
      exact congrArg _ (zip_map_if_id _ hnotin).symm
    · have hcount2 : hs.count c ≤ 1 := by
        rw [List.count_cons_of_ne (fun hcc => he hcc.symm)] at hcount
        exact hcount
      rw [setCell_cons_ne hs he]
      simp only [List.zip_cons_cons, List.map_cons, if_neg he]
      exact congrArg _ (zip_setCell hs r c f hcount2)

theorem cellAt_cons_self (hs : List String) (c : String) (v : Value) (r : List Value) :
    cellAt (c :: hs) (v :: r) c = v := by
  unfold cellAt
  rw [List.indexOf?, List.findIdx?_cons]
  simp

theorem cellAt_cons_ne (hs : List String) {h c : String} (hne : h ≠ c) (v : Value)
    (r : List Value) : cellAt (h :: hs) (v :: r) c = cellAt hs r c := by
  unfold cellAt
  have hb : (h == c) = false := beq_eq_false_iff_ne.mpr hne
  rw [List.indexOf?, List.findIdx?_cons, hb]
  simp only [Bool.false_eq_true, if_false, List.findIdx?_succ]
  rw [List.indexOf?]
  cases hf : List.findIdx? (fun x => x == c) hs with
  | none => simp
  | some i => simp

theorem filter_zip_single : ∀ (hs : List String) (row : List Value) (c : String),
    hs.Nodup → c ∈ hs → row.length = hs.length →
    (hs.zip row).filter (fun p => p.1 == c) = [(c, cellAt hs row c)]
  | [], _, c, _, hm, _ => absurd hm (List.not_mem_nil c)
  | _ :: _, [], _, _, _, hlen => by simp at hlen
  | h :: hs, v :: row, c, hn, hm, hlen => by
    by_cases he : h = c
    · subst he
      have hnotin : h ∉ hs := (List.nodup_cons.mp hn).1
      rw [cellAt_cons_self, List.zip_cons_cons, List.filter_cons_of_pos (by simp)]
      have : (hs.zip row).filter (fun p => p.1 == h) = [] := by
        rw [List.filter_eq_nil_iff]
        rintro ⟨a, b⟩ hp
        simp only [beq_iff_eq]
        intro he2
        exact hnotin (he2 ▸ (List.of_mem_zip hp).1)
      rw [this]
    · have hm2 : c ∈ hs := (List.mem_cons.mp hm).resolve_left (fun x => he x.symm)
      rw [cellAt_cons_ne hs he, List.zip_cons_cons,
        List.filter_cons_of_neg (by simp [he])]
      exact filter_zip_single hs row c (List.nodup_cons.mp hn).2 hm2 (by simpa using hlen)

theorem filter_key_map_snd {k : String} (g : String × Value → String × Value)
    (hg : ∀ p, (g p).1 = p.1) (ps : List (String × Value)) :
    (ps.map g).filter (fun p => p.1 == k) = (ps.filter (fun p => p.1 == k)).map g := by
  rw [List.filter_map]
  congr 1
  apply List.filter_congr
  intro p _
  simp [Function.comp, hg p]

theorem recLookup_discount_of_filter {ps : List (String × Value)} {bc : String} {val : Value}
    (hbcD : bc ≠ "Discount")
    (hfz : ps.filter (fun p => p.1 == "Discount") = [("Discount", val)]) :
    recLookup (dictOfPairs (ps.filter (fun p => decide (p.1 ≠ bc)))) "Discount" = some val := by
  have hfz2 : (ps.filter (fun p => decide (p.1 ≠ bc))).filter (fun p => p.1 == "Discount") =
      [("Discount", val)] := by
    rw [List.filter_filter]
    rw [show (fun p : String × Value => p.1 == "Discount" && decide (p.1 ≠ bc)) =
        (fun p : String × Value => p.1 == "Discount") from ?_, hfz]
    funext p
    by_cases hp : p.1 = "Discount"
    · simp [hp, Ne.symm hbcD]
    · simp [hp]
  have hpair : ("Discount", val) ∈ (ps.filter (fun p => decide (p.1 ≠ bc))) := by
    apply List.mem_of_mem_filter (p := fun p => p.1 == "Discount")
    rw [hfz2]
    exact List.mem_singleton.mpr rfl
  have hmem : "Discount" ∈ (ps.filter (fun p => decide (p.1 ≠ bc))).map Prod.fst :=
    List.mem_map_of_mem Prod.fst hpair
  rw [recLookup_dictOfPairs _ _ hmem]
  unfold lookupLast
  rw [hfz2]
  rfl

theorem setCell_length (hs : List String) (r : List Value) (c : String) (f : Value → Value) :
    (setCell hs r c f).length = r.length := by
  unfold setCell
  cases hs.indexOf? c <;> simp

theorem renamed_nodup (hs : List String) (dc : String) (hn : hs.Nodup)
    (hcol : ∀ h ∈ hs, h = "Discount" → h = dc) :
    (hs.map (fun h => if h = dc then "Discount" else h)).Nodup := by
  apply List.Nodup.map_on ?_ hn
  intro x hx y hy hxy
  by_cases hxd : x = dc <;> by_cases hyd : y = dc
  · rw [hxd, hyd]
  · rw [if_pos hxd, if_neg hyd] at hxy
    exact (hyd (hcol y hy hxy.symm)).elim
  · rw [if_neg hxd, if_pos hyd] at hxy
    exact (hxd (hcol x hx hxy)).elim
  · rwa [if_neg hxd, if_neg hyd] at hxy

/-- The `"Discount"`-keyed pairs of a processed (brand-stringified,
discount-normalised, renamed) row: exactly the one pair carrying the
normalised original discount cell. -/
theorem filter_discount_processed (hs : List String) (row : List Value) (bc dc : String)
    (hn : hs.Nodup) (hcol : ∀ h ∈ hs, h = "Discount" → h = dc) (hdcm : dc ∈ hs)
    (hbcdc : bc ≠ dc) (hlen : row.length = hs.length) :
    ((hs.map (fun h => if h = dc then "Discount" else h)).zip
        (setCell hs (setCell hs row bc (fun v => .vStr (pyTrim (pyStr v)))) dc
          normalizeDiscountCell)).filter (fun p => p.1 == "Discount") =
      [("Discount", normalizeDiscountCell (cellAt hs row dc))] := by
  have hcount_bc : hs.count bc ≤ 1 := List.nodup_iff_count_le_one.mp hn bc
  have hcount_dc : hs.count dc ≤ 1 := List.nodup_iff_count_le_one.mp hn dc
  rw [List.zip_map_left, List.filter_map]
  have hpred : ∀ p ∈ hs.zip (setCell hs (setCell hs row bc
      (fun v => .vStr (pyTrim (pyStr v)))) dc normalizeDiscountCell),
      ((fun q : String × Value => q.1 == "Discount") ∘
        Prod.map (fun h => if h = dc then "Discount" else h) id) p = (p.1 == dc) := by
    rintro ⟨a, b⟩ hp
    have ha : a ∈ hs := (List.of_mem_zip hp).1
    by_cases hadc : a = dc
    · simp [Function.comp, Prod.map, hadc]
    · have hnd : a ≠ "Discount" := fun he => hadc (hcol a ha he)
      simp [Function.comp, Prod.map, hadc, hnd]
  rw [List.filter_congr hpred]
  rw [zip_setCell hs _ dc normalizeDiscountCell hcount_dc]
  rw [filter_key_map_snd _ (fun p => by by_cases h : p.1 = dc <;> simp [h]) _]
  rw [zip_setCell hs row bc _ hcount_bc]
  rw [filter_key_map_snd _ (fun p => by by_cases h : p.1 = bc <;> simp [h]) _]
  rw [filter_zip_single hs row dc hn hdcm hlen]
  have hdcbc : dc ≠ bc := fun he => hbcdc he.symm
  simp [Prod.map, hdcbc]

/-- Through the whole pipeline: every processed row's record carries a
`"Discount"` field holding the normalised original discount cell of a
source row. -/
theorem processed_record_discount (cfg : Config) (t : Table) (bc dc : String)
    (hdc : resolveDiscount cfg t = some dc)
    (hn : t.headers.Nodup)
    (hrows : ∀ r ∈ t.rows, r.length = t.headers.length)
    (hcol : ∀ h ∈ t.headers, h = "Discount" → h = dc)
    (hbc_mem : bc ∈ t.headers)
    (hbcdc : bc ≠ dc) :
    ∀ r3 ∈ (processedTable cfg t bc).rows, ∃ row ∈ t.rows,
      recLookup (toRecord (processedTable cfg t bc).headers bc r3) "Discount" =
        some (normalizeDiscountCell (cellAt t.headers row dc)) := by
  have hdcm : dc ∈ t.headers := findCol_mem hdc
  have hbcD : bc ≠ "Discount" := fun he => hbcdc (hcol bc hbc_mem he)
  have hn2 := renamed_nodup t.headers dc hn hcol
  have hT2 : applyDiscount (resolveDiscount cfg t) (stringifyBrand bc t) =
      ⟨t.headers.map (fun h => if h = dc then "Discount" else h),
       t.rows.map (fun r => setCell t.headers
         (setCell t.headers r bc (fun v => .vStr (pyTrim (pyStr v)))) dc
         normalizeDiscountCell)⟩ := by
    rw [hdc]
    simp [applyDiscount, stringifyBrand, List.map_map, Function.comp]
  set rn : String → String := fun h => if h = dc then "Discount" else h with hrn
  set Φ2 : List Value → List Value := fun r => setCell t.headers
    (setCell t.headers r bc (fun v => .vStr (pyTrim (pyStr v)))) dc
    normalizeDiscountCell with hΦ2
  have hfz2 : ∀ row ∈ t.rows,
      ((t.headers.map rn).zip (Φ2 row)).filter (fun p => p.1 == "Discount") =
        [("Discount", normalizeDiscountCell (cellAt t.headers row dc))] := by
    intro row hrow
    exact filter_discount_processed t.headers row bc dc hn hcol hdcm hbcdc (hrows row hrow)
  have hΦ2len : ∀ row, (Φ2 row).length = row.length := by
    intro row
    simp [hΦ2, setCell_length]
  unfold processedTable
  rw [hT2]
  cases harticle : resolveArticle cfg t with
  | none =>
    intro r3 hr3
    simp only [applyImage] at hr3 ⊢
    obtain ⟨row, hrow, rfl⟩ := List.mem_map.mp hr3
    refine ⟨row, hrow, ?_⟩
    unfold toRecord
    exact recLookup_discount_of_filter hbcD (hfz2 row hrow)
  | some ac =>
    by_cases hcond : ac ∈ t.headers.map rn ∧ cfg.imageBaseUrl ≠ ""
    · by_cases himg : "Image" ∈ t.headers.map rn
      · -- replace an existing "Image" column
        intro r3 hr3
        simp only [applyImage, if_pos hcond, if_pos himg] at hr3 ⊢
        rw [List.map_map] at hr3
        obtain ⟨row, hrow, rfl⟩ := List.mem_map.mp hr3
        refine ⟨row, hrow, ?_⟩
        unfold toRecord
        apply recLookup_discount_of_filter hbcD
        have hcImg : (t.headers.map rn).count "Image" ≤ 1 :=
          List.nodup_iff_count_le_one.mp hn2 "Image"
        rw [Function.comp_apply, zip_setCell _ _ "Image" _ hcImg]
        rw [filter_key_map_snd _ (fun p => by by_cases h : p.1 = "Image" <;> simp [h]) _]
        rw [hfz2 row hrow]
        simp
      · -- append a fresh "Image" column
        intro r3 hr3
        simp only [applyImage, if_pos hcond, if_neg himg] at hr3 ⊢
        rw [List.map_map] at hr3
        obtain ⟨row, hrow, rfl⟩ := List.mem_map.mp hr3
        refine ⟨row, hrow, ?_⟩
        unfold toRecord
        apply recLookup_discount_of_filter hbcD
        rw [Function.comp_apply,
          List.zip_append (by rw [hΦ2len row, hrows row hrow, List.length_map]),
          List.filter_append, hfz2 row hrow]
        simp
    · intro r3 hr3
      simp only [applyImage, if_neg hcond] at hr3 ⊢
      obtain ⟨row, hrow, rfl⟩ := List.mem_map.mp hr3
      refine ⟨row, hrow, ?_⟩
      unfold toRecord
      exact recLookup_discount_of_filter hbcD (hfz2 row hrow)

theorem buildGroups_products_mem (t : Table) (bc sk : String) :
    ∀ g ∈ buildGroups t bc sk, ∀ rec ∈ g.products, ∃ r ∈ t.rows,
      rec = toRecord t.headers bc r := by
  intro g hg rec hrec
  unfold buildGroups at hg
  obtain ⟨k, _, rfl⟩ := List.mem_map.mp hg
  obtain ⟨r, hr, rfl⟩ := List.mem_map.mp hrec
  refine ⟨r, ?_, rfl⟩
  by_cases hsk : sk ∈ t.headers
  · rw [if_pos hsk] at hr
    exact List.mem_of_mem_filter ((List.mem_insertionSort _).mp hr)
  · rw [if_neg hsk] at hr
    exact List.mem_of_mem_filter hr

/-- **C3 (amended).** When the Discount column is resolved and no other
column of the table is literally named `"Discount"` (and the brand
column is a different column), every output record carries a
`"Discount"` field — the column is renamed regardless of its original
name — whose value is `round(abs(toNumber(v)))` of some input row's
discount cell `v`: an integer when `v` is parseable, missing (JSON
`null`, not omitted) otherwise. Both `"+10"` and `"-10"` normalise
to 10. (With a pre-existing distinct `"Discount"` column the rename
collides and the rightmost duplicate wins — see the counterexample.) -/
theorem c3_discount_normalization {cfg : Config} {t : Table} {doc : OutputDoc} {dc : String}
    (hok : convert cfg t = .ok doc)
    (hdc : resolveDiscount cfg t = some dc)
    (hn : t.headers.Nodup)
    (hrows : ∀ r ∈ t.rows, r.length = t.headers.length)
    (hcol : ∀ h ∈ t.headers, h = "Discount" → h = dc)
    (hbcdc : ∀ bc, findCol t.headers cfg.brandCol [] = some bc → bc ≠ dc) :
    (∀ g ∈ doc.brands, ∀ rec ∈ g.products, ∃ row ∈ t.rows,
      recLookup rec "Discount" =
        some (match toNumericCoerce (cellAt t.headers row dc) with
          | none => Value.vMissing
          | some d => Value.vNum ⟨roundDec (decAbs d), 0⟩)) ∧
    normalizeDiscountCell (.vStr "+10") = .vNum ⟨10, 0⟩ ∧
    normalizeDiscountCell (.vStr "-10") = .vNum ⟨10, 0⟩ := by
  refine ⟨?_, by decide, by decide⟩
  obtain ⟨bc, descCol, hbc, hdesc, hcnt, hsk2, hdoc⟩ := convert_ok_shape hok
  subst hdoc
  intro g hg rec hrec
  have hg2 : g ∈ buildGroups (processedTable cfg t bc) bc (sortKeyName cfg descCol) :=
    (List.mem_insertionSort brandLe).mp hg
  obtain ⟨r3, hr3, rfl⟩ := buildGroups_products_mem _ _ _ g hg2 rec hrec
  obtain ⟨row, hrow, hlook⟩ := processed_record_discount cfg t bc dc hdc hn hrows hcol
    (findCol_mem hbc) (hbcdc bc hbc) r3 hr3
  refine ⟨row, hrow, ?_⟩
  rw [hlook]
  have hconv : normalizeDiscountCell (cellAt t.headers row dc) =
      match toNumericCoerce (cellAt t.headers row dc) with
      | none => Value.vMissing
      | some d => Value.vNum ⟨roundDec (decAbs d), 0⟩ := by
    unfold normalizeDiscountCell
    cases htn : toNumericCoerce (cellAt t.headers row dc) with
    | none => rfl
    | some d => simp [roundDec_abs]
  rw [hconv]

/-- **C3 counterexample.** On a table carrying both a `"Discount %"`
column and a pre-existing `"Discount"` column (to its right) with value
99, the rename collides: the output record's `"Discount"` is the
pre-existing 99 — not `round(abs(toNumber("-10"))) = 10` as the claim
states. -/
theorem c3_collision_counterexample :
    convert defaultConfig tableDiscountCollision =
      .ok ⟨[⟨some "A", [[("Products", .vStr "p"), ("Discount", .vNum ⟨99, 0⟩)]]⟩]⟩ ∧
    normalizeDiscountCell (.vStr "-10") = .vNum ⟨10, 0⟩ ∧
    Value.vNum ⟨99, 0⟩ ≠ Value.vNum ⟨10, 0⟩ :=
  ⟨by rfl, by decide, by decide⟩

/-- Witness for C3 at a concrete input. -/
theorem c3_discount_normalization_witness :
    normalizeDiscountCell (.vStr "+10") = .vNum ⟨10, 0⟩ :=
  (@c3_discount_normalization defaultConfig tableRich richDoc "Discount %"
    (by rfl) (by rfl) (by decide) (by decide) (by decide)
    (fun bc h => by
      injection (show some "Brand" = some bc from h) with h2
      exact h2 ▸ (by decide))).2.1

/-! ### C7: the product sort key -/

/-- **C7 counterexample.** With `sort_products_by = "products"` (a
case variant of the `"Products"` header), the claim's resolution finds
`"Products"` and demands the group sorted by it — but the code uses the
setting verbatim, finds no column named `"products"`, and keeps the
original (descending) order `["b", "a"]`. -/
theorem c7_resolution_counterexample :
    convert configLowerSortKey tableTwoRows =
      .ok ⟨[⟨some "A", [[("Products", .vStr "b")], [("Products", .vStr "a")]]⟩]⟩ ∧
    specSortKey configLowerSortKey tableTwoRows.headers "Products" = some "Products" ∧
    "Products" ∈ tableTwoRows.headers ∧
    ¬charListLe (pyLower "b").data (pyLower "a").data = true :=
  ⟨by rfl, by rfl, by decide, by decide⟩

/-- **C7 (amended).** Within every brand group, products are sorted by
the `sort_products_by` setting taken verbatim as a column name (empty
or unset falls back to the resolved ProductDescription column) —
case-insensitively for text columns, missing values last, as `rowLe`
realises — and when that name labels no column of the processed table,
the original row order of the group is preserved. The sort key is NOT
resolved through `find_col` (see the counterexample). -/
theorem c7_product_sort {cfg : Config} {t : Table} {doc : OutputDoc}
    (hok : convert cfg t = .ok doc) :
    ∃ bc descCol, findCol t.headers cfg.brandCol [] = some bc ∧
      resolveDesc cfg t bc = some descCol ∧
      ∀ g ∈ doc.brands, ∃ k rows2,
        g.name = some k ∧
        g.products = rows2.map (toRecord (processedTable cfg t bc).headers bc) ∧
        rows2.Perm ((processedTable cfg t bc).rows.filter
          (fun r => brandStrOfRow (processedTable cfg t bc).headers bc r == k)) ∧
        (sortKeyName cfg descCol ∈ (processedTable cfg t bc).headers →
          rows2.Sorted (rowLe
            (dtypeObject (processedTable cfg t bc) (sortKeyName cfg descCol))
            (processedTable cfg t bc).headers (sortKeyName cfg descCol))) ∧
        (sortKeyName cfg descCol ∉ (processedTable cfg t bc).headers →
          rows2 = (processedTable cfg t bc).rows.filter
            (fun r => brandStrOfRow (processedTable cfg t bc).headers bc r == k)) := by
  obtain ⟨bc, descCol, hbc, hdesc, hcnt, hsk2, hdoc⟩ := convert_ok_shape hok
  subst hdoc
  refine ⟨bc, descCol, hbc, hdesc, ?_⟩
  intro g hg
  have hg2 : g ∈ buildGroups (processedTable cfg t bc) bc (sortKeyName cfg descCol) :=
    (List.mem_insertionSort brandLe).mp hg
  unfold buildGroups at hg2
  obtain ⟨k, _, rfl⟩ := List.mem_map.mp hg2
  by_cases hsk : sortKeyName cfg descCol ∈ (processedTable cfg t bc).headers
  · refine ⟨k, List.insertionSort (rowLe (dtypeObject (processedTable cfg t bc)
        (sortKeyName cfg descCol)) (processedTable cfg t bc).headers (sortKeyName cfg descCol))
        ((processedTable cfg t bc).rows.filter
          (fun r => brandStrOfRow (processedTable cfg t bc).headers bc r == k)),
      rfl, ?_, List.perm_insertionSort _ _, fun _ => List.sorted_insertionSort _ _,
      fun hno => absurd hsk hno⟩
    simp only [if_pos hsk]
  · refine ⟨k, (processedTable cfg t bc).rows.filter
        (fun r => brandStrOfRow (processedTable cfg t bc).headers bc r == k),
      rfl, ?_, List.Perm.refl _, fun hyes => absurd hyes hsk, fun _ => rfl⟩
    simp only [if_neg hsk]

/-- Witness for C7 at a concrete input. -/
theorem c7_product_sort_witness :
    ∃ bc descCol, findCol tableTwoRows.headers defaultConfig.brandCol [] = some bc ∧
      resolveDesc defaultConfig tableTwoRows bc = some descCol ∧
      ∀ g ∈ twoRowsDoc.brands, ∃ k rows2,
        g.name = some k ∧
        g.products = rows2.map
          (toRecord (processedTable defaultConfig tableTwoRows bc).headers bc) ∧
        rows2.Perm ((processedTable defaultConfig tableTwoRows bc).rows.filter
          (fun r => brandStrOfRow (processedTable defaultConfig tableTwoRows bc).headers bc r
            == k)) ∧
        (sortKeyName defaultConfig descCol ∈
            (processedTable defaultConfig tableTwoRows bc).headers →
          rows2.Sorted (rowLe
            (dtypeObject (processedTable defaultConfig tableTwoRows bc)
              (sortKeyName defaultConfig descCol))
            (processedTable defaultConfig tableTwoRows bc).headers
            (sortKeyName defaultConfig descCol))) ∧
        (sortKeyName defaultConfig descCol ∉
            (processedTable defaultConfig tableTwoRows bc).headers →
          rows2 = (processedTable defaultConfig tableTwoRows bc).rows.filter
            (fun r => brandStrOfRow (processedTable defaultConfig tableTwoRows bc).headers bc r
              == k)) :=
  c7_product_sort (show convert defaultConfig tableTwoRows = .ok twoRowsDoc by rfl)

/-! ### C10: record frame machinery -/

theorem cellAt_nil_row (hs : List String) (c : String) : cellAt hs [] c = .vMissing := by
  unfold cellAt
  cases hs.indexOf? c <;> simp

theorem cellAt_setCell_ne : ∀ (hs : List String) (r : List Value) {c c2 : String}
    (f : Value → Value), c2 ≠ c → cellAt hs (setCell hs r c f) c2 = cellAt hs r c2
  | [], r, _, _, f, _ => rfl
  | h :: hs, [], _, _, f, _ => by rw [setCell_nil_row]
  | h :: hs, v :: r, c, c2, f, hne => by
    by_cases hc : h = c
    · subst hc
      rw [setCell_cons_self]
      rw [cellAt_cons_ne hs (fun he => hne he.symm), cellAt_cons_ne hs (fun he => hne he.symm)]
    · rw [setCell_cons_ne hs hc]
      by_cases hc2 : h = c2
      · subst hc2
        rw [cellAt_cons_self, cellAt_cons_self]
      · rw [cellAt_cons_ne hs hc2, cellAt_cons_ne hs hc2]
        exact cellAt_setCell_ne hs r f hne

theorem cellAt_map_of_iff {rn : String → String} :
    ∀ (hs : List String) (r : List Value) {c c' : String},
    (∀ h ∈ hs, (rn h = c' ↔ h = c)) → cellAt (hs.map rn) r c' = cellAt hs r c
  | [], r, _, _, _ => rfl
  | h :: hs, [], c, c', hiff => by rw [cellAt_nil_row, cellAt_nil_row]
  | h :: hs, v :: r, c, c', hiff => by
    rw [List.map_cons]
    by_cases hc : h = c
    · have : rn h = c' := (hiff h (List.mem_cons_self h hs)).mpr hc
      rw [this, hc, cellAt_cons_self, cellAt_cons_self]
    · have : rn h ≠ c' := fun he => hc ((hiff h (List.mem_cons_self h hs)).mp he)
      rw [cellAt_cons_ne _ this, cellAt_cons_ne _ hc]
      exact cellAt_map_of_iff hs r (fun x hx => hiff x (List.mem_cons_of_mem h hx))

theorem filter_fst_map_snd (q : String → Bool) (g : String × Value → String × Value)
    (hg : ∀ p, (g p).1 = p.1) (ps : List (String × Value)) :
    (ps.map g).filter (fun p => q p.1) = (ps.filter (fun p => q p.1)).map g := by
  rw [List.filter_map]
  congr 1
  apply List.filter_congr
  intro p _
  simp [Function.comp, hg p]

theorem filter_pred_map (pred : String × Value → Bool) (g : String × Value → String × Value)
    (hpg : ∀ p, pred (g p) = pred p) (ps : List (String × Value)) :
    (ps.map g).filter pred = (ps.filter pred).map g := by
  rw [List.filter_map]
  congr 1
  apply List.filter_congr
  intro p _
  simp [Function.comp, hpg p]

/-- With distinct headers and an aligned row, `to_dict` is the plain
association list: drop the brand pairs, no key collides. -/
theorem toRecord_eq_filter (hs : List String) (r : List Value) (bc : String)
    (hn : hs.Nodup) (hlen : r.length = hs.length) :
    toRecord hs bc r = (hs.zip r).filter (fun p => decide (p.1 ≠ bc)) := by
  unfold toRecord
  apply dictOfPairs_self
  have hsub : List.Sublist (((hs.zip r).filter (fun p => decide (p.1 ≠ bc))).map Prod.fst)
      (List.map Prod.fst (hs.zip r)) :=
    List.Sublist.map Prod.fst (List.filter_sublist _)
  have hn2 : (List.map Prod.fst (hs.zip r)).Nodup := by
    rw [List.map_fst_zip hs r (le_of_eq hlen.symm)]
    exact hn
  exact List.Nodup.sublist hsub hn2

theorem filter_neq_bc_rename {hs : List String} {r : List Value} {bc dc : String}
    (hbcD : bc ≠ "Discount") (hbcdc : bc ≠ dc) :
    ((hs.zip r).map (Prod.map (fun h => if h = dc then "Discount" else h) id)).filter
        (fun p => decide (p.1 ≠ bc)) =
      ((hs.zip r).filter (fun p => decide (p.1 ≠ bc))).map
        (Prod.map (fun h => if h = dc then "Discount" else h) id) := by
  rw [List.filter_map]
  congr 1
  apply List.filter_congr
  rintro ⟨a, b⟩ hp
  have ha : a ∈ hs := (List.of_mem_zip hp).1
  by_cases hadc : a = dc
  · have h1 : ("Discount" : String) ≠ bc := Ne.symm hbcD
    have h2 : a ≠ bc := fun he => hbcdc (by rw [← he, hadc])
    simp [Function.comp, Prod.map, hadc, h1, h2, Ne.symm hbcdc]
  · simp [Function.comp, Prod.map, hadc]

theorem imageCell_processed_some (hs : List String) (row : List Value) (bc dc u ac : String)
    (hcol : ∀ h ∈ hs, h = "Discount" → h = dc)
    (hacm : ac ∈ hs) (hacbc : ac ≠ bc) (hacdc : ac ≠ dc) :
    imageCell u (hs.map (fun h => if h = dc then "Discount" else h)) ac
        (setCell hs (setCell hs row bc (fun v => .vStr (pyTrim (pyStr v)))) dc
          normalizeDiscountCell) =
      imageCell u hs ac row := by
  unfold imageCell
  have hiff : ∀ h ∈ hs, ((if h = dc then "Discount" else h) = ac ↔ h = ac) := by
    intro h hh
    by_cases hd : h = dc
    · rw [if_pos hd]
      constructor
      · intro he
        exact absurd (hcol ac hacm he.symm) hacdc
      · intro he
        exact absurd (he ▸ hd) hacdc
    · rw [if_neg hd]
  rw [cellAt_map_of_iff hs _ hiff, cellAt_setCell_ne hs _ _ hacdc,
    cellAt_setCell_ne hs _ _ hacbc]

theorem imageCell_processed_none (hs : List String) (row : List Value) (bc u ac : String)
    (hacbc : ac ≠ bc) :
    imageCell u hs ac (setCell hs row bc (fun v => .vStr (pyTrim (pyStr v)))) =
      imageCell u hs ac row := by
  unfold imageCell
  rw [cellAt_setCell_ne hs _ _ hacbc]

/-- The brand-filtered pairs of a brand-stringified,
discount-normalised, renamed row: the original pairs with the discount
one renamed and normalised. -/
theorem filtered_zip_T2_some (hs : List String) (row : List Value) (bc dc : String)
    (hn : hs.Nodup) (hcol : ∀ h ∈ hs, h = "Discount" → h = dc)
    (hbcdc : bc ≠ dc) (hbcD : bc ≠ "Discount") :
    ((hs.map (fun h => if h = dc then "Discount" else h)).zip
        (setCell hs (setCell hs row bc (fun v => .vStr (pyTrim (pyStr v)))) dc
          normalizeDiscountCell)).filter (fun p => decide (p.1 ≠ bc)) =
      ((hs.zip row).filter (fun p => decide (p.1 ≠ bc))).map
        (fun p => if p.1 = dc then ("Discount", normalizeDiscountCell p.2) else p) := by
  have hcount_bc : hs.count bc ≤ 1 := List.nodup_iff_count_le_one.mp hn bc
  have hcount_dc : hs.count dc ≤ 1 := List.nodup_iff_count_le_one.mp hn dc
  rw [List.zip_map_left, filter_neq_bc_rename hbcD hbcdc,
    zip_setCell hs _ dc normalizeDiscountCell hcount_dc,
    filter_pred_map (fun p => decide (p.1 ≠ bc)) _
      (fun p => by by_cases h : p.1 = dc <;> simp [h]),
    zip_setCell hs row bc _ hcount_bc,
    filter_pred_map (fun p => decide (p.1 ≠ bc)) _
      (fun p => by by_cases h : p.1 = bc <;> simp [h]),
    List.map_map, List.map_map]
  apply List.map_congr_left
  rintro ⟨a, b⟩ hp
  have ha : a ∈ hs := (List.of_mem_zip (List.mem_of_mem_filter hp)).1
  have habc : a ≠ bc := by
    have := List.of_mem_filter hp
    simpa using this
  simp only [Function.comp]
  by_cases hadc : a = dc
  · subst hadc
    simp [Prod.map, if_neg habc]
  · have haD : a ≠ "Discount" := fun he => hadc (hcol a ha he)
    simp [Prod.map, if_neg habc, if_neg hadc, if_neg haD]

/-- Without a resolved discount column, the brand-filtered pairs of a
brand-stringified row are the original brand-filtered pairs. -/
theorem filtered_zip_T1 (hs : List String) (row : List Value) (bc : String) (hn : hs.Nodup) :
    (hs.zip (setCell hs row bc (fun v => .vStr (pyTrim (pyStr v))))).filter
        (fun p => decide (p.1 ≠ bc)) =
      (hs.zip row).filter (fun p => decide (p.1 ≠ bc)) := by
  rw [zip_setCell hs row bc _ (List.nodup_iff_count_le_one.mp hn bc),
    filter_pred_map (fun p => decide (p.1 ≠ bc)) _
      (fun p => by by_cases h : p.1 = bc <;> simp [h])]
  have h1 : ∀ p ∈ (hs.zip row).filter (fun p => decide (p.1 ≠ bc)),
      (if p.1 = bc then (p.1, Value.vStr (pyTrim (pyStr p.2))) else p) = p := by
    rintro ⟨a, b⟩ hp
    have habc : a ≠ bc := by simpa using List.of_mem_filter hp
    simp [habc]
  rw [List.map_congr_left h1]
  exact List.map_id _

/-- The headers after the discount rename contain `"Image"` exactly
when the original headers do (the discount column is not named
`"Image"`). -/
theorem image_mem_renamed {hs : List String} {dc : String} (hdcimg : dc ≠ "Image") :
    ("Image" ∈ hs.map (fun h => if h = dc then "Discount" else h)) ↔ "Image" ∈ hs := by
  constructor
  · intro hm
    obtain ⟨h, hh, he⟩ := List.mem_map.mp hm
    by_cases hd : h = dc
    · rw [if_pos hd] at he
      exact absurd he (by decide)
    · rw [if_neg hd] at he
      exact he ▸ hh
  · intro hm
    apply List.mem_map.mpr
    refine ⟨"Image", hm, ?_⟩
    rw [if_neg (fun he => hdcimg he.symm)]

/-- Every record of the processed table is the claim's expected record
of some source row: original columns and values kept in order, brand
dropped, resolved discount renamed and normalised, and the `"Image"`
field overwritten in place or appended when the image step applies. -/
theorem processed_record_frame (cfg : Config) (t : Table) (bc : String)
    (hn : t.headers.Nodup)
    (hrows : ∀ r ∈ t.rows, r.length = t.headers.length)
    (hbc_mem : bc ∈ t.headers)
    (hdiscS : ∀ dc, resolveDiscount cfg t = some dc →
      (∀ h ∈ t.headers, h = "Discount" → h = dc) ∧ bc ≠ dc ∧ dc ≠ "Image")
    (hartS : ∀ ac, resolveArticle cfg t = some ac →
      ac ≠ bc ∧ ∀ dc, resolveDiscount cfg t = some dc → ac ≠ dc) :
    ∀ r3 ∈ (processedTable cfg t bc).rows, ∃ row ∈ t.rows,
      toRecord (processedTable cfg t bc).headers bc r3 =
        expectedRecord t.headers bc (resolveDiscount cfg t)
          ((resolveArticle cfg t).isSome && decide (cfg.imageBaseUrl ≠ ""))
          cfg.imageBaseUrl ((resolveArticle cfg t).getD "") row := by
  cases hdcR : resolveDiscount cfg t with
  | some dc =>
    obtain ⟨hcol, hbcdc, hdcimg⟩ := hdiscS dc hdcR
    have hbcD : bc ≠ "Discount" := fun he => hbcdc (hcol bc hbc_mem he)
    have hn2 := renamed_nodup t.headers dc hn hcol
    have hT2 : applyDiscount (resolveDiscount cfg t) (stringifyBrand bc t) =
        ⟨t.headers.map (fun h => if h = dc then "Discount" else h),
         t.rows.map (fun r => setCell t.headers
           (setCell t.headers r bc (fun v => .vStr (pyTrim (pyStr v)))) dc
           normalizeDiscountCell)⟩ := by
      rw [hdcR]
      simp [applyDiscount, stringifyBrand, List.map_map, Function.comp]
    have hΦ2len : ∀ row ∈ t.rows,
        (setCell t.headers (setCell t.headers row bc
          (fun v => .vStr (pyTrim (pyStr v)))) dc normalizeDiscountCell).length =
          (t.headers.map (fun h => if h = dc then "Discount" else h)).length := by
      intro row hrow
      rw [setCell_length, setCell_length, List.length_map]
      exact hrows row hrow
    unfold processedTable
    rw [hT2]
    cases harticle : resolveArticle cfg t with
    | none =>
      intro r3 hr3
      simp only [applyImage] at hr3 ⊢
      obtain ⟨row, hrow, rfl⟩ := List.mem_map.mp hr3
      refine ⟨row, hrow, ?_⟩
      rw [toRecord_eq_filter _ _ bc hn2 (by rw [hΦ2len row hrow]),
        filtered_zip_T2_some t.headers row bc dc hn hcol hbcdc hbcD]
      unfold expectedRecord
      simp only [Option.isSome_none, Bool.false_and, Bool.false_eq_true, false_and, if_false]
      apply List.map_congr_left
      rintro ⟨a, b⟩ hp
      by_cases hadc : a = dc
      · simp [hadc]
      · simp [hadc, fun he => hadc ((Option.some.injEq dc a).mp he).symm, Option.some.injEq,
          Ne.symm hadc]
    | some ac =>
      obtain ⟨hacbc, hacdcS⟩ := hartS ac harticle
      have hacdc : ac ≠ dc := hacdcS dc hdcR
      have hacm : ac ∈ t.headers := findCol_mem harticle
      have hacm2 : ac ∈ t.headers.map (fun h => if h = dc then "Discount" else h) := by
        apply List.mem_map.mpr
        exact ⟨ac, hacm, by rw [if_neg hacdc]⟩
      by_cases hurl : cfg.imageBaseUrl ≠ ""
      · by_cases himg : "Image" ∈ t.headers.map (fun h => if h = dc then "Discount" else h)
        · -- replace an existing "Image" column
          have himg0 : "Image" ∈ t.headers := (image_mem_renamed hdcimg).mp himg
          intro r3 hr3
          simp only [applyImage, if_pos (And.intro hacm2 hurl), if_pos himg] at hr3 ⊢
          rw [List.map_map] at hr3
          obtain ⟨row, hrow, rfl⟩ := List.mem_map.mp hr3
          refine ⟨row, hrow, ?_⟩
          rw [Function.comp_apply,
            toRecord_eq_filter _ _ bc hn2 (by rw [setCell_length, hΦ2len row hrow]),
            zip_setCell _ _ "Image" _ (List.nodup_iff_count_le_one.mp hn2 "Image"),
            filter_pred_map (fun p => decide (p.1 ≠ bc)) _
              (fun p => by by_cases h : p.1 = "Image" <;> simp [h]),
            filtered_zip_T2_some t.headers row bc dc hn hcol hbcdc hbcD,
            List.map_map]
          have hdf : ((some ac : Option String).isSome && decide (cfg.imageBaseUrl ≠ "")) =
              true := by
            simp only [Option.isSome_some, Bool.true_and]
            exact decide_eq_true hurl
          unfold expectedRecord
          simp only [harticle, Option.getD_some, hdf, eq_self_iff_true, true_and]
          rw [if_neg (fun hcontra => hcontra himg0)]
          apply List.map_congr_left
          rintro ⟨a, b⟩ hp
          have ha : a ∈ t.headers := (List.of_mem_zip (List.mem_of_mem_filter hp)).1
          simp only [Function.comp]
          by_cases hadc : a = dc
          · have h1 : a ≠ "Image" := fun he => hdcimg (hadc ▸ he)
            simp [hadc, h1]
          · have h2 : ¬(some dc = some a) := fun he => hadc (((Option.some.injEq dc a).mp he).symm)
            by_cases haimg : a = "Image"
            · subst haimg
              rw [imageCell_processed_some t.headers row bc dc cfg.imageBaseUrl ac
                hcol hacm hacbc hacdc]
              simp [hadc, h2, imageCell]
            · simp [hadc, h2, haimg]
        · -- append a fresh "Image" column
          have himg0 : "Image" ∉ t.headers := fun hm =>
            himg ((image_mem_renamed hdcimg).mpr hm)
          intro r3 hr3
          simp only [applyImage, if_pos (And.intro hacm2 hurl), if_neg himg] at hr3 ⊢
          rw [List.map_map] at hr3
          obtain ⟨row, hrow, rfl⟩ := List.mem_map.mp hr3
          refine ⟨row, hrow, ?_⟩
          have hbc2 : bc ∈ t.headers.map (fun h => if h = dc then "Discount" else h) := by
            apply List.mem_map.mpr
            exact ⟨bc, hbc_mem, by rw [if_neg hbcdc]⟩
          have himgbc : ("Image" : String) ≠ bc := fun he => himg (he ▸ hbc2)
          have hnodup3 : (t.headers.map (fun h => if h = dc then "Discount" else h) ++
              ["Image"]).Nodup := by
            rw [List.nodup_append]
            refine ⟨hn2, List.nodup_singleton _, ?_⟩
            intro a haa hab
            rw [List.mem_singleton] at hab
            exact himg (hab ▸ haa)
          rw [Function.comp_apply,
            toRecord_eq_filter _ _ bc hnodup3 (by simp [hΦ2len row hrow]),
            List.zip_append (hΦ2len row hrow).symm,
            List.filter_append,
            filtered_zip_T2_some t.headers row bc dc hn hcol hbcdc hbcD]
          have hdf : ((some ac : Option String).isSome && decide (cfg.imageBaseUrl ≠ "")) =
              true := by
            simp only [Option.isSome_some, Bool.true_and]
            exact decide_eq_true hurl
          unfold expectedRecord
          simp only [harticle, Option.getD_some, hdf, eq_self_iff_true, true_and]
          rw [if_pos himg0]
          congr 1
          · apply List.map_congr_left
            rintro ⟨a, b⟩ hp
            have ha : a ∈ t.headers := (List.of_mem_zip (List.mem_of_mem_filter hp)).1
            have haimg : a ≠ "Image" := fun he => himg0 (he ▸ ha)
            by_cases hadc : a = dc
            · simp [hadc]
            · have h2 : ¬(some dc = some a) :=
                fun he => hadc (((Option.some.injEq dc a).mp he).symm)
              simp [hadc, h2, haimg]
          · simp only [List.zip_cons_cons, List.zip_nil_right, List.filter_cons,
              List.filter_nil]
            rw [if_pos (by simpa using himgbc)]
            rw [imageCell_processed_some t.headers row bc dc cfg.imageBaseUrl ac
              hcol hacm hacbc hacdc]
            rfl
      · -- empty base URL: the image step is skipped
        push_neg at hurl
        intro r3 hr3
        simp only [applyImage, hurl, ne_eq, not_true_eq_false, and_false, if_false] at hr3 ⊢
        obtain ⟨row, hrow, rfl⟩ := List.mem_map.mp hr3
        refine ⟨row, hrow, ?_⟩
        rw [toRecord_eq_filter _ _ bc hn2 (by rw [hΦ2len row hrow]),
          filtered_zip_T2_some t.headers row bc dc hn hcol hbcdc hbcD]
        have hdff : ((some ac : Option String).isSome &&
            decide (cfg.imageBaseUrl ≠ "")) = false := by
          simp [hurl]
        unfold expectedRecord
        simp only [hdff, Bool.false_eq_true, false_and, if_false]
        apply List.map_congr_left
        rintro ⟨a, b⟩ hp
        by_cases hadc : a = dc
        · simp [hadc]
        · have h2 : ¬(some dc = some a) :=
            fun he => hadc (((Option.some.injEq dc a).mp he).symm)
          simp [hadc, h2]
  | none =>
    have hT1 : applyDiscount (resolveDiscount cfg t) (stringifyBrand bc t) =
        ⟨t.headers, t.rows.map (fun r => setCell t.headers r bc
          (fun v => .vStr (pyTrim (pyStr v))))⟩ := by
      rw [hdcR]
      simp [applyDiscount, stringifyBrand]
    have hΦ1len : ∀ row ∈ t.rows,
        (setCell t.headers row bc (fun v => .vStr (pyTrim (pyStr v)))).length =
          t.headers.length := by
      intro row hrow
      rw [setCell_length]
      exact hrows row hrow
    unfold processedTable
    rw [hT1]
    cases harticle : resolveArticle cfg t with
    | none =>
      intro r3 hr3
      simp only [applyImage] at hr3 ⊢
      obtain ⟨row, hrow, rfl⟩ := List.mem_map.mp hr3
      refine ⟨row, hrow, ?_⟩
      rw [toRecord_eq_filter _ _ bc hn (hΦ1len row hrow),
        filtered_zip_T1 t.headers row bc hn]
      unfold expectedRecord
      simp only [Option.isSome_none, Bool.false_and, Bool.false_eq_true, false_and, if_false]
      symm
      refine (List.map_congr_left ?_).trans (List.map_id _)
      rintro ⟨a, b⟩ _
      simp
    | some ac =>
      obtain ⟨hacbc, _⟩ := hartS ac harticle
      have hacm : ac ∈ t.headers := findCol_mem harticle
      by_cases hurl : cfg.imageBaseUrl ≠ ""
      · by_cases himg : "Image" ∈ t.headers
        · intro r3 hr3
          simp only [applyImage, if_pos (And.intro hacm hurl), if_pos himg] at hr3 ⊢
          rw [List.map_map] at hr3
          obtain ⟨row, hrow, rfl⟩ := List.mem_map.mp hr3
          refine ⟨row, hrow, ?_⟩
          rw [Function.comp_apply,
            toRecord_eq_filter _ _ bc hn (by rw [setCell_length, hΦ1len row hrow]),
            zip_setCell _ _ "Image" _ (List.nodup_iff_count_le_one.mp hn "Image"),
            filter_pred_map (fun p => decide (p.1 ≠ bc)) _
              (fun p => by by_cases h : p.1 = "Image" <;> simp [h]),
            filtered_zip_T1 t.headers row bc hn]
          have hdf : ((some ac : Option String).isSome && decide (cfg.imageBaseUrl ≠ "")) =
              true := by
            simp only [Option.isSome_some, Bool.true_and]
            exact decide_eq_true hurl
          unfold expectedRecord
          simp only [harticle, Option.getD_some, hdf, eq_self_iff_true, true_and]
          rw [if_neg (fun hcontra => hcontra himg)]
          apply List.map_congr_left
          rintro ⟨a, b⟩ hp
          by_cases haimg : a = "Image"
          · subst haimg
            rw [imageCell_processed_none t.headers row bc cfg.imageBaseUrl ac hacbc]
            simp [imageCell]
          · simp [haimg]
        · intro r3 hr3
          simp only [applyImage, if_pos (And.intro hacm hurl), if_neg himg] at hr3 ⊢
          rw [List.map_map] at hr3
          obtain ⟨row, hrow, rfl⟩ := List.mem_map.mp hr3
          refine ⟨row, hrow, ?_⟩
          have himgbc : ("Image" : String) ≠ bc := fun he => himg (he ▸ hbc_mem)
          have hnodup3 : (t.headers ++ ["Image"]).Nodup := by
            rw [List.nodup_append]
            refine ⟨hn, List.nodup_singleton _, ?_⟩
            intro a haa hab
            rw [List.mem_singleton] at hab
            exact himg (hab ▸ haa)
          rw [Function.comp_apply,
            toRecord_eq_filter _ _ bc hnodup3 (by simp [hΦ1len row hrow]),
            List.zip_append (hΦ1len row hrow).symm,
            List.filter_append,
            filtered_zip_T1 t.headers row bc hn]
          have hdf : ((some ac : Option String).isSome && decide (cfg.imageBaseUrl ≠ "")) =
              true := by
            simp only [Option.isSome_some, Bool.true_and]
            exact decide_eq_true hurl
          unfold expectedRecord
          simp only [harticle, Option.getD_some, hdf, eq_self_iff_true, true_and]
          rw [if_pos himg]
          congr 1
          · symm
            refine (List.map_congr_left ?_).trans (List.map_id _)
            rintro ⟨a, b⟩ hp
            have ha : a ∈ t.headers := (List.of_mem_zip (List.mem_of_mem_filter hp)).1
            have haimg : a ≠ "Image" := fun he => himg (he ▸ ha)
            simp [haimg]
          · simp only [List.zip_cons_cons, List.zip_nil_right, List.filter_cons,
              List.filter_nil]
            rw [if_pos (by simpa using himgbc)]
            rw [imageCell_processed_none t.headers row bc cfg.imageBaseUrl ac hacbc]
            rfl
      · push_neg at hurl
        intro r3 hr3
        simp only [applyImage, hurl, ne_eq, not_true_eq_false, and_false, if_false] at hr3 ⊢
        obtain ⟨row, hrow, rfl⟩ := List.mem_map.mp hr3
        refine ⟨row, hrow, ?_⟩
        rw [toRecord_eq_filter _ _ bc hn (hΦ1len row hrow),
          filtered_zip_T1 t.headers row bc hn]
        unfold expectedRecord
        have hdff : ((some ac : Option String).isSome &&
            decide (cfg.imageBaseUrl ≠ "")) = false := by
          simp [hurl]
        simp only [hurl, hdff, Bool.false_eq_true, false_and, if_false]
        symm
        refine (List.map_congr_left ?_).trans (List.map_id _)
        rintro ⟨a, b⟩ _
        simp

/-- **C10 counterexample.** On a table that already has an `"Image"`
column next to an article code, the image step does not append a new
field: it overwrites the pre-existing `"Image"` value (`"original"`
becomes the synthesised URL), altering an original column in place —
contrary to the claim that an `"Image"` field is appended and no other
field is altered. -/
theorem c10_image_overwrite_counterexample :
    convert defaultConfig tableImageCollision =
      .ok ⟨[⟨some "A", [[("Products", .vStr "p"), ("Article code ", .vStr "X1"),
        ("Image", .vStr "https://cdn.jsdelivr.net/gh/TVScoundrel/artstory-data-sources@main/product-images/X1.jpg")]]⟩]⟩ ∧
    tableImageCollision.rows.map
      (fun r => cellAt tableImageCollision.headers r "Image") = [.vStr "original"] ∧
    Value.vStr "https://cdn.jsdelivr.net/gh/TVScoundrel/artstory-data-sources@main/product-images/X1.jpg" ≠
      Value.vStr "original" :=
  ⟨by rfl, by rfl, by decide⟩

/-- **C10 (amended).** On a successful run — with distinct headers,
aligned rows, a resolved Discount column that is distinct from the
brand column, not named `"Image"`, and not shadowed by another column
literally named `"Discount"`, and a resolved Article Code column
distinct from both — every product record of the output is exactly the
claim's frame of some input row: the original columns in their original
order with their values unchanged, except that the Brand column is
removed, the resolved Discount column appears renamed to `"Discount"`
with its value normalised, and, when the Article Code column is
resolved and the base URL is non-empty, an `"Image"` field is
OVERWRITTEN IN PLACE when an `"Image"` column already exists and
appended at the end otherwise; no other fields are added, removed, or
altered. -/
theorem c10_record_frame {cfg : Config} {t : Table} {doc : OutputDoc} {bc : String}
    (hok : convert cfg t = .ok doc)
    (hbc : findCol t.headers cfg.brandCol [] = some bc)
    (hn : t.headers.Nodup)
    (hrows : ∀ r ∈ t.rows, r.length = t.headers.length)
    (hdiscS : ∀ dc, resolveDiscount cfg t = some dc →
      (∀ h ∈ t.headers, h = "Discount" → h = dc) ∧ bc ≠ dc ∧ dc ≠ "Image")
    (hartS : ∀ ac, resolveArticle cfg t = some ac →
      ac ≠ bc ∧ ∀ dc, resolveDiscount cfg t = some dc → ac ≠ dc) :
    ∀ g ∈ doc.brands, ∀ rec ∈ g.products, ∃ row ∈ t.rows,
      rec = expectedRecord t.headers bc (resolveDiscount cfg t)
        ((resolveArticle cfg t).isSome && decide (cfg.imageBaseUrl ≠ ""))
        cfg.imageBaseUrl ((resolveArticle cfg t).getD "") row := by
  obtain ⟨bc2, descCol, hbc2, hdesc, hcnt, hsk2, hdoc⟩ := convert_ok_shape hok
  rw [hbc] at hbc2
  injection hbc2 with hbceq
  subst hbceq
  subst hdoc
  intro g hg rec hrec
  have hg2 : g ∈ buildGroups (processedTable cfg t bc) bc (sortKeyName cfg descCol) :=
    (List.mem_insertionSort brandLe).mp hg
  obtain ⟨r3, hr3, rfl⟩ := buildGroups_products_mem _ _ _ g hg2 rec hrec
  exact processed_record_frame cfg t bc hn hrows (findCol_mem hbc) hdiscS hartS r3 hr3

/-- Witness for C10 at a concrete input: the first record of the first
brand group of `richDoc` is the expected frame of some row of
`tableRich`. -/
theorem c10_record_frame_witness :
    ∃ row ∈ tableRich.rows,
      [("Products", Value.vStr "a-prod"), ("Article code ", Value.vStr "C3"),
       ("Discount", Value.vNum ⟨13, 0⟩),
       ("Image", Value.vStr "https://cdn.jsdelivr.net/gh/TVScoundrel/artstory-data-sources@main/product-images/C3.jpg")] =
      expectedRecord tableRich.headers "Brand" (resolveDiscount defaultConfig tableRich)
        ((resolveArticle defaultConfig tableRich).isSome &&
          decide (defaultConfig.imageBaseUrl ≠ ""))
        defaultConfig.imageBaseUrl
        ((resolveArticle defaultConfig tableRich).getD "") row :=
  c10_record_frame (show convert defaultConfig tableRich = .ok richDoc by rfl)
    (by rfl) (by decide) (by decide)
    (fun dc h => by
      injection (show some "Discount %" = some dc from h) with h2
      exact h2 ▸ (by decide))
    (fun ac h => by
      injection (show some "Article code " = some ac from h) with h2
      subst h2
      refine ⟨by decide, ?_⟩
      intro dc hdc
      injection (show some "Discount %" = some dc from hdc) with h3
      subst h3
      decide)
    richDoc.brands[0] (by simp [richDoc])
    richDoc.brands[0].products[0] (by simp [richDoc])

end ArtStory
